import Mathlib

/-!
Verification development for the arborize Schematic/Definition subsystem.

Shallow embedding of `src/arborize/definitions.py`, `src/arborize/_util.py`,
`src/arborize/constraints.py` and `src/arborize/schematic.py`.

Modelling conventions:
* Python floats are modelled as `ℚ` (exact rationals); no claim under
  consideration depends on floating-point rounding.
* Python `None`-able scalar fields become `Option Value` where `Value` is a
  plain number or a `Constraint` (the two kinds of leaf values that occur in
  cable definitions).
* Python dicts become insertion-ordered association lists; `dict.__setitem__`
  overwrites in place (keeping the key's position) and appends new keys.
* Python object mutation is modelled by value-passing state updates; where a
  claim is about aliasing, an explicit store (list of cells indexed by
  natural-number references) is threaded, and `list.copy()` allocates a
  fresh cell.
* Fallible code returns `Except PyErr`; the Python exception class is kept,
  exception message strings are elided (no claim depends on them).
-/

namespace Arborize

/-- Python exception kinds raised by the embedded code. -/
inductive PyErr where
  | constructionError
  | frozenError
  | indexError
  | keyError
  | typeError
  | valueError (field : String)
  | modelDefError
  | recursionError
deriving DecidableEq, Repr

instance {ε α : Type} [DecidableEq ε] [DecidableEq α] : DecidableEq (Except ε α)
  | .ok a, .ok b => if h : a = b then .isTrue (by simp [h]) else .isFalse (by simp [h])
  | .error a, .error b => if h : a = b then .isTrue (by simp [h]) else .isFalse (by simp [h])
  | .ok _, .error _ => .isFalse (by simp)
  | .error _, .ok _ => .isFalse (by simp)

/-! ## Constraint layer (`constraints.py`, class `Constraint`) -/

/-- `Constraint.__init__`: raw fields `_upper`, `_lower`, `_tolerance`
(`None` until set). -/
structure Constraint where
  _upper : Option ℚ := none
  _lower : Option ℚ := none
  _tolerance : Option ℚ := none
deriving DecidableEq, Repr

/-- The `lower` property: returns `_lower`, shrunk by `1 - tolerance` when a
tolerance is set.  (When `_lower is None` and a tolerance is set, Python would
raise a `TypeError` from `None * float`; that corner is modelled as `none` and
is not relied on by any theorem below.) -/
def Constraint.lower (c : Constraint) : Option ℚ :=
  match c._lower, c._tolerance with
  | some v, some t => some (v * (1 - t))
  | some v, none => some v
  | none, _ => none

/-- The `upper` property, with the same shrink factor `1 - tolerance` as
`lower`. -/
def Constraint.upper (c : Constraint) : Option ℚ :=
  match c._upper, c._tolerance with
  | some v, some t => some (v * (1 - t))
  | some v, none => some v
  | none, _ => none

/-- Argument type of `Constraint.from_value`: an existing constraint, a
2-element list/tuple, or a scalar. -/
inductive ConstraintValue where
  | cv : Constraint → ConstraintValue
  | pair : ℚ → ℚ → ConstraintValue
  | scalar : ℚ → ConstraintValue
deriving DecidableEq, Repr

/-- `Constraint.from_value`. -/
def Constraint.from_value : ConstraintValue → Constraint
  | .cv c => c
  | .pair lo hi => { _lower := some lo, _upper := some hi }
  | .scalar v => { _lower := some v, _upper := some v }

/-- `Constraint.set_tolerance` (sets `_tolerance` and returns the object). -/
def Constraint.set_tolerance (c : Constraint) (t : Option ℚ) : Constraint :=
  { c with _tolerance := t }

/-- Reading the `lower` property: property access runs the getter (which
performs no assignment) and leaves the object as is; modelled as a
state-passing read so that repeated accesses can be iterated. -/
def Constraint.readLower (c : Constraint) : Option ℚ × Constraint := (c.lower, c)

/-- Reading the `upper` property, state-passing form. -/
def Constraint.readUpper (c : Constraint) : Option ℚ × Constraint := (c.upper, c)

/-- The value returned by the `n+1`-st consecutive read of `lower`. -/
def Constraint.readLowerN (c : Constraint) : Nat → Option ℚ
  | 0 => c.readLower.1
  | n + 1 => c.readLower.2.readLowerN n

/-- The value returned by the `n+1`-st consecutive read of `upper`. -/
def Constraint.readUpperN (c : Constraint) : Nat → Option ℚ
  | 0 => c.readUpper.1
  | n + 1 => c.readUpper.2.readUpperN n

/-! ## Leaf values and the merge primitives (`_util.py`) -/

/-- A scalar leaf of a parameter record: a plain number, or a `Constraint`
(constraints-flavoured definitions store `Constraint` objects in the same
fields). -/
inductive Value where
  | num : ℚ → Value
  | constr : Constraint → Value
deriving DecidableEq, Repr

/-- `_util.is_empty_constraint`: a `Constraint` whose `upper` reads as
`None`. -/
def is_empty_constraint : Value → Bool
  | .constr c => c.upper.isNone
  | .num _ => false

/-- The merge condition of `Merge.merge`: the incoming field value is not
`None` and not an empty constraint. -/
def presentVal : Option Value → Bool
  | none => false
  | some v => !is_empty_constraint v

/-! ## Association-list helpers (Python `dict` semantics) -/

/-- `d[k]` lookup returning `Option` (first matching key). -/
def assocGet {α β : Type} [DecidableEq α] : List (α × β) → α → Option β
  | [], _ => none
  | (k', v) :: rest, k => if k' = k then some v else assocGet rest k

/-- `d[k] = v`: overwrite in place if the key exists (keeping its position),
append otherwise — Python dict insertion-order semantics. -/
def assocSet {α β : Type} [DecidableEq α] : List (α × β) → α → β → List (α × β)
  | [], k, v => [(k, v)]
  | (k', v') :: rest, k, v =>
    if k' = k then (k, v) :: rest else (k', v') :: assocSet rest k v

/-! ## Parameter records (`definitions.py`) -/

/-- `CableProperties` dataclass: fields `Ra`, `cm` (in dataclass order). -/
structure CableProperties where
  Ra : Option Value := none
  cm : Option Value := none
deriving DecidableEq, Repr

/-- `Merge.merge` specialised to `CableProperties` (the mixin iterates the
dataclass fields of `self`, overwriting each with `other`'s value when that
value is not `None` and not an empty constraint). -/
def CableProperties.merge (self other : CableProperties) : CableProperties :=
  { Ra := if presentVal other.Ra then other.Ra else self.Ra
    cm := if presentVal other.cm then other.cm else self.cm }

/-- `Assert.assert_` specialised to `CableProperties`: raise `ValueError`
naming the first field that is `None` or an empty constraint. -/
def CableProperties.assert_ (c : CableProperties) : Except PyErr Unit :=
  if !presentVal c.Ra then .error (.valueError "Ra")
  else if !presentVal c.cm then .error (.valueError "cm")
  else .ok ()

/-- `Ion` dataclass: fields `rev_pot`, `int_con`, `ext_con`. -/
structure Ion where
  rev_pot : Option Value := none
  int_con : Option Value := none
  ext_con : Option Value := none
deriving DecidableEq, Repr

/-- `Merge.merge` specialised to `Ion`. -/
def Ion.merge (self other : Ion) : Ion :=
  { rev_pot := if presentVal other.rev_pot then other.rev_pot else self.rev_pot
    int_con := if presentVal other.int_con then other.int_con else self.int_con
    ext_con := if presentVal other.ext_con then other.ext_con else self.ext_con }

/-- `Assert.assert_` specialised to `Ion`. -/
def Ion.assert_ (i : Ion) : Except PyErr Unit :=
  if !presentVal i.rev_pot then .error (.valueError "rev_pot")
  else if !presentVal i.int_con then .error (.valueError "int_con")
  else if !presentVal i.ext_con then .error (.valueError "ext_con")
  else .ok ()

/-- Mechanism ids: Python `str` or 1-3 element tuple of `str`; normalised to
the tuple form (`to_mech_id` wraps a bare string into a 1-tuple). -/
abbrev MechId := List String

/-- `to_mech_id` for a bare string key. -/
def to_mech_id (s : String) : MechId := [s]

/-- `is_mech_id` (on the normalised tuple form): 0 < len < 4. -/
def is_mech_id (m : MechId) : Bool := 0 < m.length && m.length < 4

/-- `Mechanism`: a parameter-name → value mapping. -/
structure Mechanism where
  parameters : List (String × Value) := []
deriving DecidableEq, Repr

/-- `Mechanism.merge`: `self.parameters[key] = value` for every item of
`other.parameters` (unconditional per-key overwrite). -/
def Mechanism.merge (self other : Mechanism) : Mechanism :=
  { parameters := other.parameters.foldl (fun ps kv => assocSet ps kv.1 kv.2) self.parameters }

/-- `Mechanism.copy`. -/
def Mechanism.copy (m : Mechanism) : Mechanism := { parameters := m.parameters }

/-- `Synapse`: a `Mechanism` carrying its normalised `mech_id`. -/
structure Synapse where
  parameters : List (String × Value) := []
  mech_id : MechId := []
deriving DecidableEq, Repr

/-- `Synapse.merge` (inherited from `Mechanism`: parameters only). -/
def Synapse.merge (self other : Synapse) : Synapse :=
  { self with
    parameters := other.parameters.foldl (fun ps kv => assocSet ps kv.1 kv.2) self.parameters }

/-- `Synapse.copy` (fresh parameter dict, same mech id). -/
def Synapse.copy (s : Synapse) : Synapse := { parameters := s.parameters, mech_id := s.mech_id }

/-! ## The ions dictionary (`definitions.py`, class `default_ions_dict`)

A `CableType`'s `ions` mapping is either a plain dict, or (on the accumulator
produced by `CableType.default`) a `default_ions_dict`, whose `__setitem__`
back-fills a *new* key from the built-in physiological defaults by a
criss-cross merge before storing it. -/

/-- The `_defaults` table of `default_ions_dict._make_defaults`. -/
def builtinDefaultIon (k : String) : Option Ion :=
  if k = "na" then some ⟨some (.num 50), some (.num 10), some (.num 140)⟩
  else if k = "k" then some ⟨some (.num (-77)), some (.num (272/5)), some (.num (5/2))⟩
  else if k = "ca" then
    some ⟨some (.num (1324579341637009/10000000000000)), some (.num (1/20000)), some (.num 2)⟩
  else if k = "h" then some ⟨some (.num 0), some (.num 1), some (.num 1)⟩
  else none

/-- The two dict flavours holding a cable type's ions. -/
inductive IonsDict where
  | plain : List (String × Ion) → IonsDict
  | withDefaults : List (String × Ion) → IonsDict
deriving DecidableEq, Repr

/-- The entries of either flavour, in insertion order. -/
def IonsDict.entries : IonsDict → List (String × Ion)
  | .plain l => l
  | .withDefaults l => l

/-- `d[key] = ion` through `__setitem__`: on the defaults flavour a *new* key
is first criss-cross-merged with its built-in default (`value =
defaults[key].copy(); value.merge(ion); ion.merge(value)`); an unknown ion
name raises `KeyError` from the `_defaults` lookup. -/
def IonsDict.setIon : IonsDict → String → Ion → Except PyErr IonsDict
  | .plain l, k, ion => .ok (.plain (assocSet l k ion))
  | .withDefaults l, k, ion =>
    if (assocGet l k).isSome then .ok (.withDefaults (assocSet l k ion))
    else
      match builtinDefaultIon k with
      | none => .error .keyError
      | some d =>
        let value := d.merge ion
        .ok (.withDefaults (assocSet l k (ion.merge value)))

/-- In-place mutation of the ion object stored at an existing key
(`dself[key].merge(...)` does not go through `__setitem__`). -/
def IonsDict.mutateEntry : IonsDict → String → Ion → IonsDict
  | .plain l, k, v => .plain (assocSet l k v)
  | .withDefaults l, k, v => .withDefaults (assocSet l k v)

/-- `CableType._mergedict` on the ions mapping: recursively merge keys present
in both, copy keys only in the incoming dict (the copy is stored through
`__setitem__`, triggering the defaults back-fill on the defaults flavour). -/
def mergeIonsDict (dself : IonsDict) (dother : List (String × Ion)) : Except PyErr IonsDict :=
  dother.foldlM
    (fun acc kv =>
      match assocGet acc.entries kv.1 with
      | some cur => .ok (acc.mutateEntry kv.1 (cur.merge kv.2))
      | none => acc.setIon kv.1 kv.2)
    dself

/-- `CableType._mergedict` on the mechanisms mapping (plain dict). -/
def mergedictMechs (dself dother : List (MechId × Mechanism)) : List (MechId × Mechanism) :=
  dother.foldl
    (fun acc kv =>
      match assocGet acc kv.1 with
      | some cur => assocSet acc kv.1 (cur.merge kv.2)
      | none => assocSet acc kv.1 kv.2.copy)
    dself

/-- `CableType._mergedict` on the synapses mapping (plain dict keyed by the
synapse label). -/
def mergedictSyns (dself dother : List (String × Synapse)) : List (String × Synapse) :=
  dother.foldl
    (fun acc kv =>
      match assocGet acc kv.1 with
      | some cur => assocSet acc kv.1 (cur.merge kv.2)
      | none => assocSet acc kv.1 kv.2.copy)
    dself

/-! ## `CableType` -/

/-- `CableType`: cable properties, ions, mechanisms and synapses. -/
structure CableType where
  cable : CableProperties := {}
  ions : IonsDict := .plain []
  mechs : List (MechId × Mechanism) := []
  synapses : List (String × Synapse) := []
deriving DecidableEq, Repr

/-- `CableType()`: all mappings start as plain empty dicts. -/
def CableType.empty : CableType := {}

/-- `CableType.copy`: fresh cable record, and dict *comprehensions* for the
three mappings — so the copy's ions mapping is a plain dict even when the
source's was a `default_ions_dict`. -/
def CableType.copy (ct : CableType) : CableType :=
  { cable := ct.cable
    ions := .plain ct.ions.entries
    mechs := ct.mechs
    synapses := ct.synapses }

/-- `CableType.merge`: merge the cable record field-by-field and the three
mappings key-by-key. -/
def CableType.merge (self def_right : CableType) : Except PyErr CableType := do
  let ions' ← mergeIonsDict self.ions def_right.ions.entries
  .ok { cable := self.cable.merge def_right.cable
        ions := ions'
        mechs := mergedictMechs self.mechs def_right.mechs
        synapses := mergedictSyns self.synapses def_right.synapses }

/-- `CableType.assert_`: assert the cable record, then each ion (re-raising
with the ion's name). -/
def CableType.assert_ (ct : CableType) : Except PyErr Unit := do
  ct.cable.assert_
  ct.ions.entries.forM fun kv =>
    match kv.2.assert_ with
    | .ok _ => .ok ()
    | .error _ => .error (.valueError kv.1)

/-- `CableType.default`: Ra = 35.4, cm = 1, and a fresh (empty)
`default_ions_dict`. -/
def CableType.default : CableType :=
  { cable := { Ra := some (.num (177/5)), cm := some (.num 1) }
    ions := .withDefaults []
    mechs := []
    synapses := [] }

/-- `CableType.add_synapse` (validity of the mechanism id, duplicate check,
then insertion keyed by the label). -/
def CableType.add_synapse (ct : CableType) (label : String) (syn : Synapse) :
    Except PyErr CableType :=
  let mech_id := if syn.mech_id ≠ [] then syn.mech_id else to_mech_id label
  if !is_mech_id mech_id then .error .typeError
  else if (assocGet ct.synapses label).isSome then .error .keyError
  else .ok { ct with synapses := assocSet ct.synapses label syn }

/-- `CableType.anchor`: start from an empty or defaults-filled accumulator,
install the model-wide synapses under the accumulator's own (at that point
empty) synapse overrides, then fold every candidate definition into the
accumulator in the given order — the last item has the final say. -/
def CableType.anchor (defs : List (Option CableType))
    (synapses : Option (List (String × Synapse))) (use_defaults : Bool) :
    Except PyErr CableType :=
  let def0 := if use_defaults then CableType.default else CableType.empty
  let stage1 : Except PyErr CableType :=
    match synapses with
    | none => .ok def0
    | some syns =>
      (syns.foldlM (fun (g : CableType) kv => g.add_synapse kv.1 kv.2) CableType.empty).map
        fun globaldef => { def0 with synapses := mergedictSyns globaldef.synapses def0.synapses }
  stage1.bind fun def_ =>
    defs.foldlM
      (fun acc od =>
        match od with
        | none => pure acc
        | some d => acc.merge d)
      def_

/-! ## `Definition` / `ModelDefinition` -/

/-- The plain (non-constraint) model definition: insertion-ordered registries
of cable types and synapse types plus the `use_defaults` flag. -/
structure ModelDefinition where
  _cable_types : List (String × CableType) := []
  _synapse_types : List (String × Synapse) := []
  use_defaults : Bool := false
deriving DecidableEq, Repr

/-- `Definition.add_cable_type` (fails fast on duplicates). -/
def ModelDefinition.add_cable_type (d : ModelDefinition) (label : String) (ct : CableType) :
    Except PyErr ModelDefinition :=
  if (assocGet d._cable_types label).isSome then .error .keyError
  else .ok { d with _cable_types := assocSet d._cable_types label ct }

/-- `Definition.get_synapse_types` (copies of the registered synapses; copies
are value-identical here). -/
def ModelDefinition.get_synapse_types (d : ModelDefinition) : List (String × Synapse) :=
  d._synapse_types.map fun kv => (kv.1, kv.2.copy)

/-- `Definition.get_cable_types`. -/
def ModelDefinition.get_cable_types (d : ModelDefinition) : List (String × CableType) :=
  d._cable_types.map fun kv => (kv.1, kv.2.copy)

/-! ## The label sorter (`schematic.py`, `Schematic._make_label_sorter`)

`label_order(lbl)` is the tuple `([*cable_types].index(lbl), lbl)`, with the
index replaced by `-1` when the label is not registered; Python `sorted` sorts
by that tuple lexicographically.  Strings are compared by code point, modelled
by the lexicographic order on the list of code points (kernel-reducible,
unlike `String.le`).  Python's sort is stable, but two labels compare equal
under this key only when they are the *same* string, so any sort by this key
produces the same list as Python's. -/

/-- Code-point sequence of a string (Python string comparison order). -/
def strKey (s : String) : List Nat := s.data.map Char.toNat

/-- `label_order` of `_make_label_sorter`: `(insertion index | -1, label)`. -/
def label_order (d : ModelDefinition) (lbl : String) : Int × List Nat :=
  match (d._cable_types.map Prod.fst).indexOf? lbl with
  | some i => ((i : Int), strKey lbl)
  | none => (-1, strKey lbl)

/-- The comparison used by the sort: lexicographic on `label_order`. -/
def labelLE (d : ModelDefinition) (a b : String) : Prop :=
  (label_order d a).1 < (label_order d b).1 ∨
    ((label_order d a).1 = (label_order d b).1 ∧ (label_order d a).2 ≤ (label_order d b).2)

instance (d : ModelDefinition) : DecidableRel (labelLE d) := fun a b => by
  unfold labelLE; infer_instance

instance (d : ModelDefinition) : IsTotal String (labelLE d) := by
  constructor
  intro a b
  rcases lt_trichotomy (label_order d a).1 (label_order d b).1 with h | h | h
  · exact Or.inl (Or.inl h)
  · rcases le_total (label_order d a).2 (label_order d b).2 with h2 | h2
    · exact Or.inl (Or.inr ⟨h, h2⟩)
    · exact Or.inr (Or.inr ⟨h.symm, h2⟩)
  · exact Or.inr (Or.inl h)

instance (d : ModelDefinition) : IsTrans String (labelLE d) := by
  constructor
  rintro a b c (h1 | ⟨h1, h1'⟩) (h2 | ⟨h2, h2'⟩)
  · exact Or.inl (h1.trans h2)
  · exact Or.inl (h2 ▸ h1)
  · exact Or.inl (h1 ▸ h2)
  · exact Or.inr ⟨h1.trans h2, h1'.trans h2'⟩

/-- The sorter returned by `_make_label_sorter`: `sorted(labels, key=label_order)`. -/
def sortLabels (d : ModelDefinition) (labels : List String) : List String :=
  List.insertionSort (labelLE d) labels

/-! ## Schematic (`schematic.py`)

Branch objects are arena-allocated: `cables` and `units` are growable arrays,
parent/child links are indices.  Label lists are heap cells in `store`
(a reference per Python list object), because `CableBranch.append` stores
`labels.copy()` — a fresh cell — into the unit branch, and one claim is about
exactly that aliasing behaviour. -/

/-- A 3D point: location id, coordinates, radius and the owning unit branch
(arena index). -/
structure Point where
  loc : Nat × Nat
  coords : ℚ × ℚ × ℚ
  radius : ℚ
  branch : Nat
deriving DecidableEq, Repr

/-- A user-facing cable branch. -/
structure CableBranch where
  points : List Point := []
  parent : Option Nat := none
  children : List Nat := []
deriving DecidableEq, Repr

/-- A true/unit branch; `labelsRef` is the store cell holding its label list,
`definition` is set by freeze. -/
structure UnitBranch where
  points : List Point := []
  parent : Option Nat := none
  children : List Nat := []
  labelsRef : Nat := 0
  definition : Option CableType := none
deriving DecidableEq, Repr

/-- The schematic state. -/
structure Schematic where
  _name : Option String := none
  _frozen : Bool := false
  _definition : ModelDefinition := {}
  cables : List CableBranch := []
  units : List UnitBranch := []
  roots : List Nat := []
  _named : Nat := 0
  store : List (List String) := []
deriving DecidableEq, Repr

/-- The label list of the unit branch at arena index `i`. -/
def Schematic.unitLabelsAt (s : Schematic) (i : Nat) : List String :=
  s.store.getD (s.units.getD i {}).labelsRef []

/-- `CableBranch.append` on the branch at index `bid`, with the caller's label
list passed as the store reference `lr`.  Returns the updated schematic and
the arena index of the point's unit branch (`point.branch`).

If the branch has points and the previous point's unit has the same label
*list* (Python `==` on lists), the unit is continued; otherwise a new unit is
created, child of the previous point's unit.  In all cases
`branch.labels = labels.copy()` stores a *fresh* copy of the caller's list
into the chosen unit. -/
def Schematic.appendPoint (s : Schematic) (bid : Nat) (loc : Nat × Nat)
    (coords : ℚ × ℚ × ℚ) (radius : ℚ) (lr : Nat) : Schematic × Nat :=
  let cb := s.cables.getD bid {}
  let lv := s.store.getD lr []
  let (s1, uidx) :=
    match cb.points.getLast? with
    | some prev =>
      let pu := s.units.getD prev.branch {}
      if s.store.getD pu.labelsRef [] = lv then
        (s, prev.branch)
      else
        let nidx := s.units.length
        ({ s with
            units :=
              (s.units.set prev.branch { pu with children := pu.children ++ [nidx] })
                ++ [({ parent := some prev.branch } : UnitBranch)] },
          nidx)
    | none => ({ s with units := s.units ++ [({} : UnitBranch)] }, s.units.length)
  -- branch.labels = labels.copy(): allocate a fresh cell with the caller's
  -- current list value and point the unit at it.
  let newRef := s1.store.length
  let s2 := { s1 with store := s1.store ++ [lv] }
  let u := s2.units.getD uidx {}
  let point : Point := ⟨loc, coords, radius, uidx⟩
  let s3 :=
    { s2 with
      units := s2.units.set uidx { u with labelsRef := newRef, points := u.points ++ [point] } }
  let cb3 := s3.cables.getD bid {}
  let s4 := { s3 with cables := s3.cables.set bid { cb3 with points := cb3.points ++ [point] } }
  (s4, uidx)

/-- The endpoint-linking tail of `create_location`: resolve
`cable_parent = self.cables[endpoint[0]]` and
`unit_parent = cable_parent.points[endpoint[1]].branch` (an `IndexError`
when the endpoint does not denote an existing point), then set the four
parent/child links.  `s1` is the state right after the point was appended,
`bid` the new point's cable, `uidx` its unit branch. -/
def Schematic.linkEndpoint (s1 : Schematic) (bid uidx : Nat) (ep : Nat × Nat) :
    Except PyErr Schematic :=
  match (s1.cables.getD ep.1 {}).points.get? ep.2 with
  | none => .error .indexError
  | some epPoint =>
    let s2 :=
      { s1 with
        cables := s1.cables.set bid { (s1.cables.getD bid {}) with parent := some ep.1 } }
    let cpar := s2.cables.getD ep.1 {}
    let s3 := { s2 with cables := s2.cables.set ep.1 { cpar with children := cpar.children ++ [bid] } }
    let u := s3.units.getD uidx {}
    let s4 := { s3 with units := s3.units.set uidx { u with parent := some epPoint.branch } }
    let upar := s4.units.getD epPoint.branch {}
    let s5 :=
      { s4 with
        units := s4.units.set epPoint.branch { upar with children := upar.children ++ [uidx] } }
    .ok s5

/-- `Schematic.create_location`.  Notes on the error paths, mirrored from the
source: when the branch-order check fails, building the error message indexes
`self.cables[next_bid - 1]`, which on an *empty* cables list raises
`IndexError` instead of the intended `ConstructionError`; a nonexistent
`endpoint` raises `IndexError` from `self.cables[...]`/`.points[...]`.
(The Python code appends the new branch/point before a later failure, state
that the exception path discards here; no claim observes it.) -/
def Schematic.create_location (s : Schematic) (location : Nat × Nat)
    (coords : ℚ × ℚ × ℚ) (radius : ℚ) (lr : Nat)
    (endpoint : Option (Nat × Nat) := none) : Except PyErr Schematic :=
  if s._frozen then .error .frozenError else
  let (bid, pid) := location
  let next_bid := s.cables.length
  if bid = next_bid ∨ (bid : Int) = (next_bid : Int) - 1 then
    -- starting a new branch, or continuing the last one
    let s0 := if bid = next_bid then { s with cables := s.cables ++ [{}] } else s
    if pid ≠ (s0.cables.getD bid {}).points.length then .error .constructionError
    else
      let sp := s0.appendPoint bid location coords radius lr
      match endpoint with
      | some ep => sp.1.linkEndpoint bid sp.2 ep
      | none => if pid = 0 then .ok { sp.1 with roots := sp.1.roots ++ [sp.2] } else .ok sp.1
  else
    -- ascending branch order violated; the error message itself evaluates
    -- cables[next_bid - 1], an IndexError when cables is empty
    if s.cables.isEmpty then .error .indexError else .error .constructionError

/-- `Schematic.create_empty`. -/
def Schematic.create_empty (s : Schematic) : Except PyErr Schematic :=
  if s._frozen then .error .frozenError else .ok { s with cables := s.cables ++ [{}] }

/-! ### Depth-first iteration (`Schematic.__iter__`)

The Python loop keeps a `deque` seeded with `self.roots` and pops from the
*right*; after yielding a branch it extends the right end with
`reversed(children)`.  The deque is modelled top-of-stack-first, so the seed
is `roots.reverse` and a pop takes the list head.  The fuel bounds the number
of yields; on a (well-formed) forest `units.length` pops suffice, and on a
cyclic graph Python would not terminate. -/

/-- The stack loop of `__iter__`. -/
def iterLoop (children : Nat → List Nat) : Nat → List Nat → List Nat
  | 0, _ => []
  | _ + 1, [] => []
  | fuel + 1, n :: rest => n :: iterLoop children fuel (children n ++ rest)

/-- Children (arena indices) of the unit branch at index `n`. -/
def Schematic.childrenOf (s : Schematic) (n : Nat) : List Nat :=
  (s.units.getD n {}).children

/-- `__iter__` over unit branches, as the list of visited arena indices. -/
def Schematic.iterUnits (s : Schematic) : List Nat :=
  iterLoop s.childrenOf s.units.length s.roots.reverse

/-! ### Freeze (`Schematic.freeze`, `_flatten_branches`, `_makedef`) -/

/-- `Schematic._makedef`: anchor the cable types of the priority-sorted
labels, with the model-wide synapse types and the `use_defaults` flag. -/
def Schematic.makedef (s : Schematic) (labels : List String) : Except PyErr CableType :=
  CableType.anchor
    ((sortLabels s._definition labels).map fun lbl => assocGet s._definition._cable_types lbl)
    (some s._definition.get_synapse_types)
    s._definition.use_defaults

/-- `Schematic._flatten_branches`: for each branch, compute and store the
resolved definition, assert it (an unlabeled branch re-raises the bare
`ValueError`, a labeled one a `ModelDefinitionError`), then recurse into the
children.  The fuel bounds the recursion depth (Python would hit its own
recursion limit on a cyclic parent/child graph). -/
def Schematic.flattenBranches : Schematic → Nat → List Nat → Except PyErr Schematic
  | s, _, [] => .ok s
  | _, 0, _ :: _ => .error .recursionError
  | s, fuel + 1, idx :: rest => do
    let u := s.units.getD idx {}
    let d ← s.makedef (s.store.getD u.labelsRef [])
    let s1 := { s with units := s.units.set idx { u with definition := some d } }
    (match d.assert_ with
     | .ok _ => Except.ok ()
     | .error e =>
        if (s.store.getD u.labelsRef []).isEmpty then Except.error e
        else Except.error PyErr.modelDefError)
    let s2 ← s1.flattenBranches fuel (s1.units.getD idx {}).children
    s2.flattenBranches fuel rest

/-- Stand-in for `_random_name()` (a 10-letter random string); its exact value
is irrelevant to every claim, only that freeze fills a `None` name. -/
def randomNameModel : String := "KXQWVZJHBM"

/-- `Schematic.freeze`: flatten all roots, fill in the name, set the frozen
flag.  A second call hits the `if not self._frozen` guard and does nothing.
(The constraint-reconversion branch is guarded by
`hasattr(definition, "convert_to_constraints")`, absent on the plain
`ModelDefinition` modelled here.) -/
def Schematic.freeze (s : Schematic) : Except PyErr Schematic :=
  if s._frozen then .ok s
  else do
    let s1 ← s.flattenBranches (s.units.length + 1) s.roots
    .ok { s1 with _name := some (s1._name.getD randomNameModel), _frozen := true }

/-- `Schematic.create_name`. -/
def Schematic.create_name (s : Schematic) : Except PyErr (String × Schematic) :=
  if !s._frozen then .error .frozenError
  else
    let n := s._named + 1
    .ok (s._name.getD "" ++ "_" ++ toString n, { s with _named := n })

/-! ## General helper lemmas -/

theorem exceptBind_ok {ε α β : Type} (e : Except ε α) (f : α → Except ε β) (b : β) :
    e.bind f = .ok b ↔ ∃ a, e = .ok a ∧ f a = .ok b := by
  cases e with
  | ok a => simp [Except.bind]
  | error _ => simp [Except.bind]

theorem bind_eq_exceptBind {ε α β : Type} (e : Except ε α) (f : α → Except ε β) :
    e >>= f = e.bind f := rfl

theorem exceptOkBind {ε α β : Type} (a : α) (f : α → Except ε β) :
    (Except.ok a : Except ε α) >>= f = f a := rfl

theorem exceptErrorBind {ε α β : Type} (e : ε) (f : α → Except ε β) :
    (Except.error e : Except ε α) >>= f = .error e := rfl

theorem exceptBindOk' {ε α β : Type} (e : Except ε α) (f : α → Except ε β) (b : β) :
    e >>= f = .ok b ↔ ∃ a, e = .ok a ∧ f a = .ok b := by
  rw [bind_eq_exceptBind]; exact exceptBind_ok e f b

theorem exceptMap_ok {ε α β : Type} (e : Except ε α) (f : α → β) (b : β) :
    e.map f = .ok b ↔ ∃ a, e = .ok a ∧ b = f a := by
  cases e with
  | ok a => simp [Except.map, eq_comm]
  | error _ => simp [Except.map]

theorem assocGet_assocSet_self {α β : Type} [DecidableEq α] (l : List (α × β)) (k : α) (v : β) :
    assocGet (assocSet l k v) k = some v := by
  induction l with
  | nil => simp [assocSet, assocGet]
  | cons kv rest ih =>
    by_cases h : kv.1 = k
    · simp [assocSet, assocGet, h]
    · simpa [assocSet, assocGet, h] using ih

theorem assocGet_assocSet_ne {α β : Type} [DecidableEq α] (l : List (α × β)) (k k' : α) (v : β)
    (h : k ≠ k') : assocGet (assocSet l k v) k' = assocGet l k' := by
  induction l with
  | nil => simp [assocSet, assocGet, h]
  | cons kv rest ih =>
    by_cases hk : kv.1 = k
    · simp [assocSet, assocGet, hk, h]
    · simp only [assocSet, assocGet, if_neg hk]
      by_cases hk' : kv.1 = k'
      · simp [assocGet, hk']
      · simpa [assocGet, hk'] using ih

theorem insertionSort_pair {α : Type} (r : α → α → Prop) [DecidableRel r] (a b : α) :
    List.insertionSort r [a, b] = if r a b then [a, b] else [b, a] := by
  simp [List.insertionSort, List.orderedInsert]

/-! ## Claim C9: constraint tolerance -/

/-- The constraint built from the scalar `10` with tolerance `0.1`. -/
def toleranceExample : Constraint :=
  (Constraint.from_value (.scalar 10)).set_tolerance (some (1/10))

/-- C9 (confirmed): a Constraint built from the scalar 10 with tolerance 0.1
reports `lower = 9 = 10*(1-0.1)` and `upper` shrunk by the same factor
(`upper = 9`), and any number of repeated reads of `lower` or `upper` yields
those same values — the shrink never compounds across accesses. -/
theorem constraint_tolerance_applied_once (n : Nat) :
    toleranceExample.readLowerN n = some 9 ∧ toleranceExample.readUpperN n = some 9 := by
  have harith : (10 : ℚ) * (1 - 1/10) = 9 := by norm_num
  have hl : toleranceExample.lower = some 9 := by
    rw [show toleranceExample.lower = some ((10 : ℚ) * (1 - 1/10)) from rfl, harith]
  have hu : toleranceExample.upper = some 9 := by
    rw [show toleranceExample.upper = some ((10 : ℚ) * (1 - 1/10)) from rfl, harith]
  induction n with
  | zero => exact ⟨hl, hu⟩
  | succ n ih =>
    exact ⟨by simpa [Constraint.readLowerN, Constraint.readLower] using ih.1,
           by simpa [Constraint.readUpperN, Constraint.readUpper] using ih.2⟩

/-! ## Claim C6: freeze idempotence -/

theorem freeze_sets_frozen (s s' : Schematic) (h : s.freeze = .ok s') : s'._frozen = true := by
  unfold Schematic.freeze at h
  by_cases hf : s._frozen = true
  · rw [if_pos hf, Except.ok.injEq] at h
    subst h; exact hf
  · rw [if_neg hf] at h
    cases hflat : s.flattenBranches (s.units.length + 1) s.roots with
    | error e =>
      rw [hflat, exceptErrorBind] at h
      exact absurd h (by simp)
    | ok s1 =>
      rw [hflat, exceptOkBind, Except.ok.injEq] at h
      subst h
      rfl

/-- C6 (confirmed): once `freeze()` has succeeded, calling it again raises no
error and returns the state unchanged — every unit branch's resolved
definition, the name, and all other observable state are identical to the
state after the first call. -/
theorem freeze_idempotent (s s' : Schematic) (h : s.freeze = .ok s') :
    s'.freeze = .ok s' := by
  unfold Schematic.freeze
  simp [freeze_sets_frozen s s' h]

/-- Witness for C6 at a concrete schematic (the empty schematic freezes
successfully, and a second freeze is the identity on the result). -/
theorem freeze_idempotent_witness :
    (Schematic.freeze {} =
      .ok { _name := some randomNameModel, _frozen := true } ∧
     Schematic.freeze { _name := some randomNameModel, _frozen := true } =
      .ok { _name := some randomNameModel, _frozen := true }) := by
  have h1 : Schematic.freeze {} = .ok { _name := some randomNameModel, _frozen := true } := by
    decide
  exact ⟨h1, freeze_idempotent _ _ h1⟩

/-! ## Claim C1: label fold priority order -/

/-- Modelled from the spec's words for comparison with the code's sorter
(claim C1): labels ordered by first-registration index, with every label not
registered in the Definition placed *after* all registered labels, ties broken
alphabetically. -/
def specClaimLabelOrder (d : ModelDefinition) (lbl : String) : Int × List Nat :=
  match (d._cable_types.map Prod.fst).indexOf? lbl with
  | some i => ((i : Int), strKey lbl)
  | none => ((d._cable_types.length : Int), strKey lbl)

/-- The comparison the spec's words describe. -/
def specClaimLabelLE (d : ModelDefinition) (a b : String) : Prop :=
  (specClaimLabelOrder d a).1 < (specClaimLabelOrder d b).1 ∨
    ((specClaimLabelOrder d a).1 = (specClaimLabelOrder d b).1 ∧
      (specClaimLabelOrder d a).2 ≤ (specClaimLabelOrder d b).2)

instance (d : ModelDefinition) : DecidableRel (specClaimLabelLE d) := fun a b => by
  unfold specClaimLabelLE; infer_instance

/-- The ordering the spec's words describe: sort by `specClaimLabelOrder`. -/
def specClaimSortLabels (d : ModelDefinition) (labels : List String) : List String :=
  List.insertionSort (specClaimLabelLE d) labels

/-- A definition registering only the label `"a"`. -/
def oneLabelDef : ModelDefinition := { _cable_types := [("a", CableType.empty)] }

/-- C1 counterexample: for a Definition registering only `"a"`, the code's
sorter puts the unregistered label `"z"` *before* the registered `"a"`
(unregistered labels get sort key `-1`), while the claim's order puts it
after. -/
theorem label_priority_counterexample :
    sortLabels oneLabelDef ["a", "z"] = ["z", "a"] ∧
    specClaimSortLabels oneLabelDef ["a", "z"] = ["a", "z"] ∧
    (["z", "a"] : List String) ≠ ["a", "z"] := by
  refine ⟨by decide, by decide, by decide⟩

/-- C1 amended: during resolution the branch's labels are folded in the order
of the key `(first-registration index, label)` where a label *not* registered
in the Definition gets index `-1` — i.e. unregistered labels are placed
*before* all registered ones (ties broken alphabetically by code point), and
registered labels follow in registration order.  The sorted list is a
permutation of the branch's labels, it is sorted by that key, and any
unregistered label compares below any registered one. -/
theorem label_priority_amended (d : ModelDefinition) (labels : List String)
    (a b : String) (i : Nat)
    (ha : (d._cable_types.map Prod.fst).indexOf? a = none)
    (hb : (d._cable_types.map Prod.fst).indexOf? b = some i) :
    (sortLabels d labels).Perm labels ∧
    List.Sorted (labelLE d) (sortLabels d labels) ∧
    labelLE d a b := by
  refine ⟨List.perm_insertionSort _ labels, List.sorted_insertionSort _ labels, ?_⟩
  left
  unfold label_order
  rw [ha, hb]
  simp only
  omega

/-- Witness for C1 amended at the counterexample's concrete input. -/
theorem label_priority_amended_witness :
    (sortLabels oneLabelDef ["a", "z"]).Perm ["a", "z"] ∧
    List.Sorted (labelLE oneLabelDef) (sortLabels oneLabelDef ["a", "z"]) ∧
    labelLE oneLabelDef "z" "a" :=
  label_priority_amended oneLabelDef ["a", "z"] "z" "a" 0 (by decide) (by decide)

/-! ## Claim C3: unit-branch splitting comparison -/

/-- Two consecutive points on one cable branch, with label lists that are
equal as sets but differently ordered. -/
def orderSwappedBuild : Except PyErr Schematic :=
  (Schematic.create_location { store := [["x", "y"], ["y", "x"]] } (0, 0) (0, 0, 0) 1 0 none).bind
    fun s => s.create_location (0, 1) (0, 1, 0) 1 1 none

/-- C3 counterexample: the label lists `["x","y"]` and `["y","x"]` are equal
as sets (a permutation of each other), yet appending the two points produces
*two* unit branches, not one — `CableBranch.append` compares label *lists*
(Python `==`), not sets. -/
theorem labelset_order_counterexample :
    (["x", "y"] : List String).Perm ["y", "x"] ∧
    (orderSwappedBuild.map fun s => s.units.length) = .ok 2 :=
  ⟨by decide, by decide⟩

/-- Helper facts about `appendPoint` when the target branch already has a last
point and the incoming label list equals the previous unit's label list. -/
theorem appendPoint_continue (s : Schematic) (bid : Nat) (loc : Nat × Nat)
    (c : ℚ × ℚ × ℚ) (r : ℚ) (lr : Nat) (prev : Point)
    (hlast : (s.cables.getD bid {}).points.getLast? = some prev)
    (heq : s.store.getD (s.units.getD prev.branch {}).labelsRef [] = s.store.getD lr []) :
    (s.appendPoint bid loc c r lr).2 = prev.branch ∧
    ((s.appendPoint bid loc c r lr).1).units.length = s.units.length ∧
    ((s.appendPoint bid loc c r lr).1).cables.length = s.cables.length := by
  have hlast' := hlast
  have heq' := heq
  simp only [List.getD_eq_getElem?_getD] at hlast' heq'
  simp [Schematic.appendPoint, hlast, hlast', heq, heq']

/-- Helper facts about `appendPoint` when the label list differs from the
previous unit's: a new unit branch is created. -/
theorem appendPoint_newUnit (s : Schematic) (bid : Nat) (loc : Nat × Nat)
    (c : ℚ × ℚ × ℚ) (r : ℚ) (lr : Nat) (prev : Point)
    (hlast : (s.cables.getD bid {}).points.getLast? = some prev)
    (hne : s.store.getD (s.units.getD prev.branch {}).labelsRef [] ≠ s.store.getD lr []) :
    (s.appendPoint bid loc c r lr).2 = s.units.length ∧
    ((s.appendPoint bid loc c r lr).1).units.length = s.units.length + 1 ∧
    ((s.appendPoint bid loc c r lr).1).cables.length = s.cables.length := by
  have hlast' := hlast
  have hne' := hne
  simp only [List.getD_eq_getElem?_getD] at hlast' hne'
  simp [Schematic.appendPoint, hlast, hlast', hne, hne']

/-- Reduction of `create_location` on the path that continues the last cable
branch at its next point index, with no endpoint: it succeeds and returns the
state produced by `appendPoint`. -/
theorem create_location_continue_ok (s : Schematic) (bid pid : Nat)
    (c : ℚ × ℚ × ℚ) (r : ℚ) (lr : Nat)
    (hfz : s._frozen = false)
    (hb : bid + 1 = s.cables.length)
    (hpid : pid = (s.cables.getD bid {}).points.length)
    (hpid0 : pid ≠ 0) :
    s.create_location (bid, pid) c r lr none =
      .ok (s.appendPoint bid (bid, pid) c r lr).1 := by
  have hbid : bid ≠ s.cables.length := by omega
  have hbid2 : (bid : Int) = (s.cables.length : Int) - 1 := by omega
  simp only [Schematic.create_location]
  rw [if_neg (by simp [hfz])]
  rw [if_pos (Or.inr hbid2)]
  rw [if_neg hbid]
  rw [if_neg (by simp [hpid])]
  simp [hpid0]

/-- C3 amended: appending the next point of a (nonempty) cable branch
continues the previous point's unit branch if and only if the new label
*list* equals the previous point's label list — order-sensitive Python list
equality, not set equality.  When the lists are equal, no unit branch is
added and the new point lands on the previous point's unit; when they differ
(even as a mere reordering of the same set), a fresh unit branch is created. -/
theorem labelset_split_amended (s : Schematic) (bid pid : Nat)
    (c : ℚ × ℚ × ℚ) (r : ℚ) (lr : Nat) (prev : Point)
    (hfz : s._frozen = false)
    (hb : bid + 1 = s.cables.length)
    (hlast : (s.cables.getD bid {}).points.getLast? = some prev)
    (hpid : pid = (s.cables.getD bid {}).points.length) :
    ∃ s', s.create_location (bid, pid) c r lr none = .ok s' ∧
      (s.unitLabelsAt prev.branch = s.store.getD lr [] →
        s'.units.length = s.units.length ∧
        (s.appendPoint bid (bid, pid) c r lr).2 = prev.branch) ∧
      (s.unitLabelsAt prev.branch ≠ s.store.getD lr [] →
        s'.units.length = s.units.length + 1 ∧
        (s.appendPoint bid (bid, pid) c r lr).2 = s.units.length) := by
  have hpts : (s.cables.getD bid {}).points ≠ [] := by
    intro hnil
    rw [hnil] at hlast
    simp [List.getLast?] at hlast
  have hpid0 : pid ≠ 0 := by
    rw [hpid]
    intro h0
    exact hpts (List.length_eq_zero.mp h0)
  refine ⟨(s.appendPoint bid (bid, pid) c r lr).1,
    create_location_continue_ok s bid pid c r lr hfz hb hpid hpid0, ?_, ?_⟩
  · intro heq
    have h := appendPoint_continue s bid (bid, pid) c r lr prev hlast heq
    exact ⟨h.2.1, h.1⟩
  · intro hne
    have h := appendPoint_newUnit s bid (bid, pid) c r lr prev hlast hne
    exact ⟨h.2.1, h.1⟩

/-- The state after the first point of `orderSwappedBuild`. -/
def oneStepState : Schematic :=
  (Schematic.create_location { store := [["x", "y"], ["y", "x"]] }
      (0, 0) (0, 0, 0) 1 0 none).toOption.getD {}

/-- Witness for C3 amended: appending the order-swapped label list to the
one-point schematic creates a second unit branch. -/
theorem labelset_split_amended_witness :
    ∃ s', oneStepState.create_location (0, 1) (0, 1, 0) 1 1 none = .ok s' ∧
      (oneStepState.unitLabelsAt 0 = oneStepState.store.getD 1 [] →
        s'.units.length = oneStepState.units.length ∧
        (oneStepState.appendPoint 0 (0, 1) (0, 1, 0) 1 1).2 = 0) ∧
      (oneStepState.unitLabelsAt 0 ≠ oneStepState.store.getD 1 [] →
        s'.units.length = oneStepState.units.length + 1 ∧
        (oneStepState.appendPoint 0 (0, 1) (0, 1, 0) 1 1).2 = oneStepState.units.length) := by
  have h := labelset_split_amended oneStepState 0 1 (0, 1, 0) 1 1
    ⟨(0, 0), (0, 0, 0), 1, 0⟩ (by decide) (by decide) (by decide) (by decide)
  exact h

/-! ## Claim C8: depth-first iteration order -/

/-- A schematic with two root unit branches, added in the order 0 then 1. -/
def twoRootsBuild : Except PyErr Schematic :=
  (Schematic.create_location { store := [["a"], ["b"]] } (0, 0) (0, 0, 0) 1 0 none).bind
    fun s => s.create_location (1, 0) (1, 0, 0) 1 1 none

/-- C8 counterexample: the roots were added in order `[0, 1]`, but iteration
visits them as `[1, 0]` — `__iter__` seeds a deque with `self.roots` and pops
from the right, so roots are visited in *reverse* order of addition. -/
theorem dfs_roots_counterexample :
    (twoRootsBuild.map fun s => (s.roots, s.iterUnits)) = .ok ([0, 1], [1, 0]) ∧
    ([1, 0] : List Nat) ≠ [0, 1] :=
  ⟨by decide, by decide⟩

/-! Rose trees of unit-branch indices, used to state what a depth-first
traversal of the unit-branch arena is. -/
mutual
inductive UTree where
  | node : Nat → UForest → UTree
inductive UForest where
  | leaf : UForest
  | cons : UTree → UForest → UForest
end

mutual
/-- Depth-first flattening of a tree: the node, then its children's subtrees
in order. -/
def UTree.flatten : UTree → List Nat
  | .node n f => n :: f.flatten
/-- Depth-first flattening of a forest, left to right. -/
def UForest.flatten : UForest → List Nat
  | .leaf => []
  | .cons t f => t.flatten ++ f.flatten
end

mutual
/-- Number of nodes of a tree. -/
def UTree.size : UTree → Nat
  | .node _ f => f.size + 1
/-- Number of nodes of a forest. -/
def UForest.size : UForest → Nat
  | .leaf => 0
  | .cons t f => t.size + f.size
end

/-- Root index of a tree. -/
def UTree.rootIdx : UTree → Nat
  | .node n _ => n

/-- The list of root indices of a forest. -/
def UForest.rootList : UForest → List Nat
  | .leaf => []
  | .cons t f => t.rootIdx :: f.rootList

mutual
/-- `t` describes the arena reachable from its root: every node's recorded
children list is exactly the forest of its subtrees, in order. -/
def UTree.rep (ch : Nat → List Nat) : UTree → Bool
  | .node n f => (ch n == f.rootList) && f.rep ch
/-- Forest version of `UTree.rep`. -/
def UForest.rep (ch : Nat → List Nat) : UForest → Bool
  | .leaf => true
  | .cons t f => t.rep ch && f.rep ch
end

/-- The iteration loop yields nothing from an empty stack. -/
theorem iterLoop_nil (ch : Nat → List Nat) (fuel : Nat) : iterLoop ch fuel [] = [] := by
  cases fuel <;> rfl

mutual
/-- Processing a represented tree's root consumes `t.size` fuel and yields its
depth-first flattening before the rest of the stack. -/
theorem iterLoop_tree (ch : Nat → List Nat) (t : UTree) (h : t.rep ch = true)
    (f : Nat) (rest : List Nat) :
    iterLoop ch (t.size + f) (t.rootIdx :: rest) = t.flatten ++ iterLoop ch f rest := by
  match t with
  | .node n F =>
    simp only [UTree.rep, Bool.and_eq_true, beq_iff_eq] at h
    have hsz : UTree.size (.node n F) + f = (F.size + f) + 1 := by
      simp [UTree.size]; omega
    rw [hsz]
    show n :: iterLoop ch (F.size + f) (ch n ++ rest) = UTree.flatten (.node n F) ++ iterLoop ch f rest
    rw [h.1, iterLoop_forest ch F h.2 f rest]
    simp [UTree.flatten]

/-- Forest version of `iterLoop_tree`. -/
theorem iterLoop_forest (ch : Nat → List Nat) (F : UForest) (h : F.rep ch = true)
    (f : Nat) (rest : List Nat) :
    iterLoop ch (F.size + f) (F.rootList ++ rest) = F.flatten ++ iterLoop ch f rest := by
  match F with
  | .leaf => simp [UForest.size, UForest.rootList, UForest.flatten]
  | .cons t F1 =>
    simp only [UForest.rep, Bool.and_eq_true] at h
    have hsz : UForest.size (.cons t F1) + f = t.size + (F1.size + f) := by
      simp [UForest.size]; omega
    rw [hsz]
    show iterLoop ch (t.size + (F1.size + f)) (t.rootIdx :: (F1.rootList ++ rest)) = _
    rw [iterLoop_tree ch t h.1 (F1.size + f) (F1.rootList ++ rest),
        iterLoop_forest ch F1 h.2 f rest]
    simp [UForest.flatten]
end

/-- C8 amended: depth-first iteration over unit branches visits the roots in
*reverse* order of addition; within each subtree, a branch is yielded before
its children, and its children are visited in the order they were attached
(not reversed), each with its full subtree, before the branch's later
siblings.  Formally: if the forest `F` (children listed in attachment order)
describes the arena and its top-level roots are `s.roots.reverse`, iteration
yields exactly the depth-first flattening of `F`. -/
theorem dfs_iteration_amended (s : Schematic) (F : UForest)
    (hrep : F.rep s.childrenOf = true)
    (hroots : F.rootList = s.roots.reverse)
    (hsize : F.size ≤ s.units.length) :
    s.iterUnits = F.flatten := by
  unfold Schematic.iterUnits
  rw [← hroots]
  obtain ⟨k, hk⟩ : ∃ k, s.units.length = F.size + k := ⟨s.units.length - F.size, by omega⟩
  rw [hk, ← List.append_nil F.rootList,
      iterLoop_forest s.childrenOf F hrep k [], iterLoop_nil, List.append_nil]

/-- The state built by `twoRootsBuild`. -/
def twoRootsState : Schematic := twoRootsBuild.toOption.getD {}

/-! ## Claim C4: create_location error conditions -/

/-- `(bid, pid)` is the next contiguous coordinate: point 0 of branch
`next_id`, or the next point index of the last branch. -/
def Schematic.nextContiguous (s : Schematic) (bid pid : Nat) : Prop :=
  (bid = s.cables.length ∧ pid = 0) ∨
    (bid + 1 = s.cables.length ∧ pid = (s.cables.getD bid {}).points.length)

instance (s : Schematic) (bid pid : Nat) : Decidable (s.nextContiguous bid pid) := by
  unfold Schematic.nextContiguous; infer_instance

/-- The state and unit index right after a contiguous `create_location` has
appended its point (before any endpoint linking). -/
def Schematic.midAppend (s : Schematic) (bid pid : Nat) (c : ℚ × ℚ × ℚ) (r : ℚ)
    (lr : Nat) : Schematic × Nat :=
  (if bid = s.cables.length then { s with cables := s.cables ++ [({} : CableBranch)] } else s).appendPoint
    bid (bid, pid) c r lr

/-- A contiguous call on the empty schematic with a nonexistent endpoint. -/
def badEndpointResult : Except PyErr Schematic :=
  Schematic.create_location { store := [["soma"]] } (0, 0) (0, 0, 0) 1 0 (some (3, 0))

/-- C4 counterexample: `(0,0)` is the next contiguous coordinate of the empty
schematic, and the endpoint `(3,0)` does not refer to an existing point, yet
the call raises `IndexError` (from `self.cables[endpoint[0]]`), not the
`ConstructionError` the claim's `if and only if` requires. -/
theorem construction_error_counterexample :
    (Schematic.nextContiguous { store := [["soma"]] } 0 0) ∧
    badEndpointResult = .error .indexError ∧
    PyErr.indexError ≠ PyErr.constructionError :=
  ⟨by decide, by decide, by decide⟩

/-- C4 amended, exhaustive case analysis of `create_location` on an unfrozen
schematic:
* non-contiguous `(bid, pid)` raises `ConstructionError` — except that a
  branch-order violation on a schematic with *no* cables raises `IndexError`
  (building the error message indexes `cables[next_bid - 1]`);
* a contiguous call without endpoint never raises;
* a contiguous call with an endpoint succeeds when the endpoint denotes an
  existing point (resolved against the state right after the append, so the
  new branch and point are visible), and raises `IndexError` — not
  `ConstructionError` — when it does not. -/
theorem create_location_error_amended (s : Schematic) (bid pid : Nat)
    (c : ℚ × ℚ × ℚ) (r : ℚ) (lr : Nat) (ep : Option (Nat × Nat))
    (hfz : s._frozen = false) :
    (bid ≠ s.cables.length → bid + 1 ≠ s.cables.length →
      s.create_location (bid, pid) c r lr ep =
        (if s.cables.isEmpty then .error .indexError else .error .constructionError)) ∧
    (bid = s.cables.length → pid ≠ 0 →
      s.create_location (bid, pid) c r lr ep = .error .constructionError) ∧
    (bid + 1 = s.cables.length → pid ≠ (s.cables.getD bid {}).points.length →
      s.create_location (bid, pid) c r lr ep = .error .constructionError) ∧
    (s.nextContiguous bid pid → ep = none →
      ∃ s', s.create_location (bid, pid) c r lr ep = .ok s') ∧
    (s.nextContiguous bid pid → ∀ e,
      ep = some e →
      ((((s.midAppend bid pid c r lr).1.cables.getD e.1 {}).points.get? e.2).isSome →
        ∃ s', s.create_location (bid, pid) c r lr ep = .ok s') ∧
      ((((s.midAppend bid pid c r lr).1.cables.getD e.1 {}).points.get? e.2) = none →
        s.create_location (bid, pid) c r lr ep = .error .indexError)) := by
  have hfz' : ¬s._frozen = true := by simp [hfz]
  refine ⟨?_, ?_, ?_, ?_, ?_⟩
  · -- branch order violated
    intro hb1 hb2
    have hcond : ¬(bid = s.cables.length ∨ (bid : Int) = (s.cables.length : Int) - 1) := by
      rintro (h | h)
      · exact hb1 h
      · exact hb2 (by omega)
    simp only [Schematic.create_location]
    rw [if_neg hfz', if_neg hcond]
  · -- new branch, first point id must be 0
    intro hb hp
    have hlen : ((s.cables ++ [({} : CableBranch)]).getD bid {}).points.length = 0 := by
      subst hb
      rw [List.getD_eq_getElem?_getD, List.getElem?_concat_length]
      rfl
    simp only [Schematic.create_location]
    rw [if_neg hfz', if_pos (Or.inl hb), if_pos hb]
    rw [if_pos (by rw [hlen]; exact hp)]
  · -- continuing the last branch, wrong point id
    intro hb hp
    have hbid : bid ≠ s.cables.length := by omega
    have hbid2 : (bid : Int) = (s.cables.length : Int) - 1 := by omega
    simp only [Schematic.create_location]
    rw [if_neg hfz', if_pos (Or.inr hbid2), if_neg hbid, if_pos hp]
  · -- contiguous, no endpoint: success
    rintro hcont rfl
    rcases hcont with ⟨hb, hp⟩ | ⟨hb, hp⟩
    · have hlen : ((s.cables ++ [({} : CableBranch)]).getD bid {}).points.length = 0 := by
        subst hb
        rw [List.getD_eq_getElem?_getD, List.getElem?_concat_length]
        rfl
      simp only [Schematic.create_location]
      rw [if_neg hfz', if_pos (Or.inl hb), if_pos hb]
      rw [if_neg (by rw [hlen, hp]; exact fun h => h rfl)]
      simp only [hp, if_pos rfl]
      exact ⟨_, rfl⟩
    · have hbid : bid ≠ s.cables.length := by omega
      have hbid2 : (bid : Int) = (s.cables.length : Int) - 1 := by omega
      simp only [Schematic.create_location]
      rw [if_neg hfz', if_pos (Or.inr hbid2), if_neg hbid]
      rw [if_neg (by rw [hp]; exact fun h => h rfl)]
      by_cases h0 : pid = 0
      · rw [if_pos h0]; exact ⟨_, rfl⟩
      · rw [if_neg h0]; exact ⟨_, rfl⟩
  · -- contiguous, endpoint given
    rintro hcont e rfl
    have hred : s.create_location (bid, pid) c r lr (some e) =
        (s.midAppend bid pid c r lr).1.linkEndpoint bid (s.midAppend bid pid c r lr).2 e := by
      rcases hcont with ⟨hb, hp⟩ | ⟨hb, hp⟩
      · have hlen : ((s.cables ++ [({} : CableBranch)]).getD bid {}).points.length = 0 := by
          subst hb
          rw [List.getD_eq_getElem?_getD, List.getElem?_concat_length]
          rfl
        simp only [Schematic.create_location]
        rw [if_neg hfz', if_pos (Or.inl hb), if_pos hb]
        rw [if_neg (by rw [hlen, hp]; exact fun h => h rfl)]
        simp [Schematic.midAppend, hb]
      · have hbid : bid ≠ s.cables.length := by omega
        have hbid2 : (bid : Int) = (s.cables.length : Int) - 1 := by omega
        simp only [Schematic.create_location]
        rw [if_neg hfz', if_pos (Or.inr hbid2), if_neg hbid]
        rw [if_neg (by rw [hp]; exact fun h => h rfl)]
        simp [Schematic.midAppend, hbid]
    constructor
    · intro hsome
      rw [hred]
      obtain ⟨p, hp⟩ := Option.isSome_iff_exists.mp hsome
      unfold Schematic.linkEndpoint
      rw [hp]
      exact ⟨_, rfl⟩
    · intro hnone
      rw [hred]
      unfold Schematic.linkEndpoint
      rw [hnone]

/-- Witness for C4 amended: on the empty schematic the coordinate `(0,0)` is
the next contiguous one, and the contiguous endpoint-free call succeeds
(conjunct 4 of the amended theorem, hypotheses discharged concretely). -/
theorem create_location_error_amended_witness :
    ∃ s', (Schematic.mk none false {} [] [] [] 0 [["soma"]]).create_location
        (0, 0) (0, 0, 0) 1 0 none = .ok s' :=
  (create_location_error_amended (Schematic.mk none false {} [] [] [] 0 [["soma"]])
      0 0 (0, 0, 0) 1 0 none rfl).2.2.2.1 (by decide) rfl

/-- Witness for C8 amended at the two-root schematic: the describing forest
lists the roots reversed, and iteration yields its flattening. -/
theorem dfs_iteration_amended_witness :
    twoRootsState.iterUnits =
      (UForest.cons (.node 1 .leaf) (UForest.cons (.node 0 .leaf) .leaf)).flatten :=
  dfs_iteration_amended twoRootsState
    (UForest.cons (.node 1 .leaf) (UForest.cons (.node 0 .leaf) .leaf))
    (by decide) (by decide) (by decide)

/-! ## Freeze-resolution extraction (shared by claims C2 and C7) -/

/-- A schematic holding one cable branch with a single point, whose single
unit branch carries the label list `labels` (store cell 0), with definition
`d` attached — the state reached by `create_location (0,0)` plus a definition
assignment. -/
def oneUnitSchematic (d : ModelDefinition) (labels : List String) : Schematic :=
  { _definition := d
    cables := [{ points := [⟨(0, 0), (0, 0, 0), 1, 0⟩] }]
    units := [{ points := [⟨(0, 0), (0, 0, 0), 1, 0⟩] }]
    roots := [0]
    store := [labels] }

/-- `_flatten_branches` over a one-unit arena: a successful run resolves the
unit's definition through `_makedef` and stores it. -/
theorem flatten_one (s : Schematic) (fuel : Nat) (u : UnitBranch) (sOut : Schematic)
    (hu : s.units = [u]) (hch : u.children = [])
    (h : s.flattenBranches (fuel + 1) [0] = .ok sOut) :
    ∃ ct, s.makedef (s.store.getD u.labelsRef []) = .ok ct ∧
      sOut.units = [{ u with definition := some ct }] := by
  simp only [Schematic.flattenBranches, hu] at h
  simp only [List.getD_cons_zero, List.set_cons_zero] at h
  rw [exceptBindOk'] at h
  obtain ⟨ct, hmk, h⟩ := h
  rw [exceptBindOk'] at h
  obtain ⟨u0, hassert, h⟩ := h
  simp only [List.getD_cons_zero, hch, Schematic.flattenBranches] at h
  rw [exceptOkBind] at h
  simp only [Schematic.flattenBranches, Except.ok.injEq] at h
  refine ⟨ct, ?_, ?_⟩
  · simpa [hu] using hmk
  · rw [← h]
    simp [hch]

/-- A successful freeze of the one-unit schematic resolves the unit's
definition through `_makedef` on its label list. -/
theorem freeze_oneUnit (d : ModelDefinition) (labels : List String) (s' : Schematic)
    (h : (oneUnitSchematic d labels).freeze = .ok s') :
    ∃ ct, (oneUnitSchematic d labels).makedef labels = .ok ct ∧
      (s'.units.getD 0 {}).definition = some ct := by
  unfold Schematic.freeze at h
  rw [if_neg (by simp [oneUnitSchematic])] at h
  rw [exceptBindOk'] at h
  obtain ⟨s1, h1, h2⟩ := h
  have hroots : (oneUnitSchematic d labels).roots = [0] := rfl
  rw [hroots] at h1
  obtain ⟨ct, hmk, hunits⟩ :=
    flatten_one (oneUnitSchematic d labels) (oneUnitSchematic d labels).units.length
      { points := [⟨(0, 0), (0, 0, 0), 1, 0⟩] } s1 rfl rfl h1
  refine ⟨ct, by simpa [oneUnitSchematic] using hmk, ?_⟩
  rw [Except.ok.injEq] at h2
  subst h2
  simp [hunits]

/-! ## Claim C2: last-registered label wins -/

/-- `CableType.merge` merges the cable record field-by-field, whatever happens
to the ion dictionaries. -/
theorem mergeCT_ok_cable (a b c : CableType) (h : a.merge b = .ok c) :
    c.cable = a.cable.merge b.cable := by
  unfold CableType.merge at h
  cases hm : mergeIonsDict a.ions b.ions.entries with
  | error e =>
    rw [hm, exceptErrorBind] at h
    exact absurd h (by simp)
  | ok i =>
    rw [hm, exceptOkBind, Except.ok.injEq] at h
    rw [← h]

/-- The candidate-definition fold of `anchor` merges cable records in list
order (skipping absent definitions). -/
theorem anchorFold_ok_cable (defs : List (Option CableType)) :
    ∀ (acc c : CableType),
      (defs.foldlM
        (fun acc od =>
          match od with
          | none => pure acc
          | some dd => acc.merge dd)
        acc) = .ok c →
      c.cable = defs.foldl
        (fun cp od =>
          match od with
          | none => cp
          | some dd => cp.merge dd.cable)
        acc.cable := by
  induction defs with
  | nil =>
    intro acc c h
    simp only [List.foldlM_nil] at h
    cases h
    rfl
  | cons od rest ih =>
    intro acc c h
    rw [List.foldlM_cons] at h
    cases od with
    | none =>
      rw [show (pure acc : Except PyErr CableType) = .ok acc from rfl, exceptOkBind] at h
      simpa [List.foldl_cons] using ih acc c h
    | some dd =>
      rw [exceptBindOk'] at h
      obtain ⟨acc1, hm, hrest⟩ := h
      have := ih acc1 c hrest
      rw [List.foldl_cons]
      simpa [mergeCT_ok_cable acc dd acc1 hm] using this

/-- `CableType.anchor` resolves the cable record by folding the candidates'
cable records over the (possibly defaults-filled) starting record; the
synapse-installation stage never touches the cable record. -/
theorem anchor_ok_cable (defs : List (Option CableType))
    (syns : Option (List (String × Synapse))) (ud : Bool) (c : CableType)
    (h : CableType.anchor defs syns ud = .ok c) :
    c.cable = defs.foldl
      (fun cp od =>
        match od with
        | none => cp
        | some dd => cp.merge dd.cable)
      (if ud then CableType.default else CableType.empty).cable := by
  unfold CableType.anchor at h
  rw [exceptBind_ok] at h
  obtain ⟨def1, hstage, hfold⟩ := h
  have hcable : def1.cable = (if ud then CableType.default else CableType.empty).cable := by
    cases syns with
    | none =>
      have h' : Except.ok (if ud then CableType.default else CableType.empty) =
          Except.ok def1 := hstage
      rw [Except.ok.injEq] at h'
      rw [← h']
    | some sl =>
      have h' : (sl.foldlM (fun (g : CableType) kv => g.add_synapse kv.1 kv.2)
            CableType.empty).map
          (fun globaldef =>
            { (if ud then CableType.default else CableType.empty) with
              synapses := mergedictSyns globaldef.synapses
                (if ud then CableType.default else CableType.empty).synapses }) =
          Except.ok def1 := hstage
      rw [exceptMap_ok] at h'
      obtain ⟨g, _, rfl⟩ := h'
      rfl
  rw [← hcable]
  exact anchorFold_ok_cable defs def1 c hfold

/-- The sort of a two-label list under a strict priority. -/
theorem sortLabels_two (d : ModelDefinition) (L1 L2 : String)
    (h12 : labelLE d L1 L2) (h21 : ¬labelLE d L2 L1) :
    sortLabels d [L1, L2] = [L1, L2] ∧ sortLabels d [L2, L1] = [L1, L2] := by
  unfold sortLabels
  rw [insertionSort_pair, insertionSort_pair]
  exact ⟨by rw [if_pos h12], by rw [if_neg h21]⟩

/-- Registration order induces strict sorter priority. -/
theorem labelLE_of_idx_lt (d : ModelDefinition) (L1 L2 : String) (i j : Nat)
    (h1 : (d._cable_types.map Prod.fst).indexOf? L1 = some i)
    (h2 : (d._cable_types.map Prod.fst).indexOf? L2 = some j)
    (hij : i < j) :
    labelLE d L1 L2 ∧ ¬labelLE d L2 L1 := by
  unfold labelLE label_order
  rw [h1, h2]
  constructor
  · left
    simp only
    omega
  · rintro (h | ⟨h, _⟩)
    · simp only at h
      omega
    · simp only at h
      omega

/-- C2 (confirmed): if `L1` is registered in the Definition before `L2`, and
a unit branch carries exactly `{L1, L2}` (in either order in its own label
list), then after a successful freeze the branch's resolved cable record
takes any field that `L2` sets from `L2` — the last-registered label wins,
independently of the branch's label-list order. -/
theorem last_registered_label_wins (d : ModelDefinition) (L1 L2 : String)
    (ct1 ct2 : CableType) (i j : Nat) (labels : List String) (s' : Schematic)
    (h1 : (d._cable_types.map Prod.fst).indexOf? L1 = some i)
    (h2 : (d._cable_types.map Prod.fst).indexOf? L2 = some j)
    (hij : i < j)
    (hg1 : assocGet d._cable_types L1 = some ct1)
    (hg2 : assocGet d._cable_types L2 = some ct2)
    (hlab : labels = [L1, L2] ∨ labels = [L2, L1])
    (hfz : (oneUnitSchematic d labels).freeze = .ok s') :
    ∃ ct, (s'.units.getD 0 {}).definition = some ct ∧
      (presentVal ct1.cable.Ra = true → presentVal ct2.cable.Ra = true →
        ct.cable.Ra = ct2.cable.Ra) ∧
      (presentVal ct1.cable.cm = true → presentVal ct2.cable.cm = true →
        ct.cable.cm = ct2.cable.cm) := by
  obtain ⟨ct, hmk, hdef⟩ := freeze_oneUnit d labels s' hfz
  refine ⟨ct, hdef, ?_, ?_⟩ <;> intro hp1 hp2
  all_goals {
    have hle := labelLE_of_idx_lt d L1 L2 i j h1 h2 hij
    have hsort := sortLabels_two d L1 L2 hle.1 hle.2
    have hsorted : sortLabels d labels = [L1, L2] := by
      rcases hlab with rfl | rfl
      · exact hsort.1
      · exact hsort.2
    unfold Schematic.makedef at hmk
    rw [show (oneUnitSchematic d labels)._definition = d from rfl] at hmk
    rw [hsorted] at hmk
    have hc := anchor_ok_cable _ _ _ _ hmk
    rw [List.map_cons, List.map_cons, List.map_nil, hg1, hg2] at hc
    simp only [List.foldl_cons, List.foldl_nil] at hc
    rw [hc]
    simp [CableProperties.merge, hp2]
  }

/-- Two concrete cable types for the C2 witness. -/
def ctWitnessA : CableType := { cable := { Ra := some (.num 11), cm := some (.num 21) } }

/-- Second concrete cable type for the C2 witness. -/
def ctWitnessB : CableType := { cable := { Ra := some (.num 12), cm := some (.num 22) } }

/-- The two-label definition used by the C2 witness. -/
def twoLabelDef : ModelDefinition :=
  { _cable_types := [("L1", ctWitnessA), ("L2", ctWitnessB)] }

/-- Witness for C2 with the branch's labels listed in the *reverse* of
registration order: the resolved Ra/cm still come from L2. -/
theorem last_registered_label_wins_witness :
    ∃ ct, (((oneUnitSchematic twoLabelDef ["L2", "L1"]).freeze.toOption.getD
        {}).units.getD 0 {}).definition = some ct ∧
      (presentVal ctWitnessA.cable.Ra = true → presentVal ctWitnessB.cable.Ra = true →
        ct.cable.Ra = ctWitnessB.cable.Ra) ∧
      (presentVal ctWitnessA.cable.cm = true → presentVal ctWitnessB.cable.cm = true →
        ct.cable.cm = ctWitnessB.cable.cm) :=
  last_registered_label_wins twoLabelDef "L1" "L2" ctWitnessA ctWitnessB 0 1
    ["L2", "L1"] ((oneUnitSchematic twoLabelDef ["L2", "L1"]).freeze.toOption.getD {})
    (by decide) (by decide) (by decide) (by decide) (by decide) (Or.inr rfl) (by decide)

/-! ## Claim C7: ion defaults back-fill -/

/-- The built-in sodium default as an `Ion` record. -/
def defaultNaIon : Ion := ⟨some (.num 50), some (.num 10), some (.num 140)⟩

/-- A cable type that sets cable properties but no ion values at all. -/
def ctNoIons : CableType := { cable := { Ra := some (.num 10), cm := some (.num 1) } }

/-- C7 counterexample: with `use_defaults = True` and a cable type containing
*no* ion entries, freeze succeeds but the resolved definition has no
`ions["na"]` entry at all (the `default_ions_dict` starts empty and
back-fills only on `__setitem__`), rather than the built-in sodium default
the claim requires. -/
theorem defaults_backfill_counterexample :
    ((oneUnitSchematic ⟨[("soma", ctNoIons)], [], true⟩ ["soma"]).freeze.map
      fun s' => (s'.units.getD 0 {}).definition.map
        fun ct => assocGet ct.ions.entries "na") = .ok (some none) ∧
    (none : Option Ion) ≠ some defaultNaIon :=
  ⟨by decide, by decide⟩

/-- For a Definition with a single registered label, `_makedef` of that label
reduces to merging the label's cable type over the defaults-filled
accumulator. -/
theorem makedef_oneLabel (lbl : String) (ct : CableType) :
    (oneUnitSchematic ⟨[(lbl, ct)], [], true⟩ [lbl]).makedef [lbl] =
      CableType.default.merge ct := by
  have hget : assocGet [(lbl, ct)] lbl = some ct := by simp [assocGet]
  unfold Schematic.makedef
  rw [show (oneUnitSchematic ⟨[(lbl, ct)], [], true⟩ [lbl])._definition
      = (⟨[(lbl, ct)], [], true⟩ : ModelDefinition) from rfl]
  rw [show sortLabels (⟨[(lbl, ct)], [], true⟩ : ModelDefinition) [lbl] = [lbl] from rfl]
  rw [List.map_cons, List.map_nil]
  rw [show (ModelDefinition.mk [(lbl, ct)] [] true)._cable_types = [(lbl, ct)] from rfl]
  rw [hget]
  show (CableType.default.merge ct) >>= pure = CableType.default.merge ct
  exact bind_pure _

/-- C7 amended: with `use_defaults = True`, the defaults back-fill is per
*declared* ion key.  A cable type with no ion entries resolves with no
`ions["na"]` entry at all; a cable type that declares the ion `"na"` but sets
none of its values resolves `ions["na"]` to exactly the built-in sodium
default `(rev_pot=50, int_con=10, ext_con=140)`. -/
theorem defaults_backfill_amended (lbl : String) (ct : CableType) (s' : Schematic)
    (hfz : (oneUnitSchematic ⟨[(lbl, ct)], [], true⟩ [lbl]).freeze = .ok s') :
    (ct.ions = .plain [] →
      ∃ ctR, (s'.units.getD 0 {}).definition = some ctR ∧
        assocGet ctR.ions.entries "na" = none) ∧
    (ct.ions = .plain [("na", ⟨none, none, none⟩)] →
      ∃ ctR, (s'.units.getD 0 {}).definition = some ctR ∧
        assocGet ctR.ions.entries "na" = some defaultNaIon) := by
  obtain ⟨ctR, hmk, hdef⟩ := freeze_oneUnit _ _ _ hfz
  rw [makedef_oneLabel] at hmk
  obtain ⟨cab, ions, mechs, syns⟩ := ct
  constructor <;> intro hions
  · cases hions
    have h' : Except.ok
        ({ cable := CableType.default.cable.merge cab
           ions := .withDefaults []
           mechs := mergedictMechs CableType.default.mechs mechs
           synapses := mergedictSyns CableType.default.synapses syns } : CableType) =
        Except.ok ctR := hmk
    rw [Except.ok.injEq] at h'
    exact ⟨ctR, hdef, by rw [← h']; rfl⟩
  · cases hions
    have h' : Except.ok
        ({ cable := CableType.default.cable.merge cab
           ions := .withDefaults [("na", defaultNaIon)]
           mechs := mergedictMechs CableType.default.mechs mechs
           synapses := mergedictSyns CableType.default.synapses syns } : CableType) =
        Except.ok ctR := hmk
    rw [Except.ok.injEq] at h'
    refine ⟨ctR, hdef, ?_⟩
    rw [← h']
    simp [IonsDict.entries, assocGet]

/-- Witness for C7 amended at a concrete cable type with no ion entries. -/
theorem defaults_backfill_amended_witness :
    ∃ ctR, ((((oneUnitSchematic ⟨[("soma", ctNoIons)], [], true⟩
        ["soma"]).freeze.toOption.getD {}).units.getD 0 {}).definition = some ctR ∧
      assocGet ctR.ions.entries "na" = none) :=
  (defaults_backfill_amended "soma" ctNoIons
      ((oneUnitSchematic ⟨[("soma", ctNoIons)], [], true⟩ ["soma"]).freeze.toOption.getD {})
      (by decide)).1 rfl

/-! ## Claim C10: the caller's label list is copied, never aliased -/

theorem set_concat_length {α : Type} (l : List α) (a b : α) :
    (l ++ [a]).set l.length b = l ++ [b] := by
  induction l with
  | nil => rfl
  | cons x xs ih => simp [List.set, ih]

theorem getD_concat_length {α : Type} (l : List α) (a d : α) :
    (l ++ [a]).getD l.length d = a := by
  rw [List.getD_eq_getElem?_getD, List.getElem?_concat_length]
  rfl

theorem getD_concat_of_length {α : Type} (l : List α) (a d : α) (n : Nat)
    (h : l.length = n) : (l ++ [a]).getD n d = a := by
  subst h
  exact getD_concat_length _ _ _

theorem set_concat_of_length {α : Type} (l : List α) (a b : α) (n : Nat)
    (h : l.length = n) : (l ++ [a]).set n b = l ++ [b] := by
  subst h
  exact set_concat_length _ _ _

theorem getD_set_ne {α : Type} (l : List α) (i j : Nat) (a d : α) (h : i ≠ j) :
    (l.set i a).getD j d = l.getD j d := by
  rw [List.getD_eq_getElem?_getD, List.getD_eq_getElem?_getD, List.getElem?_set_ne h]

theorem getD_mem {α : Type} (l : List α) (i : Nat) (d : α) (h : i < l.length) :
    l.getD i d ∈ l := by
  rw [List.getD_eq_getElem l d h]
  exact List.getElem_mem h

theorem getD_out {α : Type} (l : List α) (i : Nat) (d : α) (h : ¬i < l.length) :
    l.getD i d = d := by
  rw [List.getD_eq_getElem?_getD, List.getElem?_eq_none (by omega)]
  rfl

/-- Explicit form of `appendPoint` on an empty branch. -/
theorem appendPoint_form_empty (s : Schematic) (bid : Nat) (loc : Nat × Nat)
    (c : ℚ × ℚ × ℚ) (r : ℚ) (lr : Nat)
    (hl : (s.cables.getD bid {}).points.getLast? = none) :
    s.appendPoint bid loc c r lr =
      ({ s with
          store := s.store ++ [s.store.getD lr []]
          units := s.units ++
            [{ points := [⟨loc, c, r, s.units.length⟩], labelsRef := s.store.length }]
          cables := s.cables.set bid
            { s.cables.getD bid {} with
              points := (s.cables.getD bid {}).points ++ [⟨loc, c, r, s.units.length⟩] } },
        s.units.length) := by
  simp only [Schematic.appendPoint, hl]
  rw [getD_concat_length, set_concat_length]
  simp

/-- Explicit form of `appendPoint` when the previous point's unit carries the
same label list: the unit is continued (its labels re-pointed at a fresh
copy). -/
theorem appendPoint_form_continue (s : Schematic) (bid : Nat) (loc : Nat × Nat)
    (c : ℚ × ℚ × ℚ) (r : ℚ) (lr : Nat) (prev : Point)
    (hl : (s.cables.getD bid {}).points.getLast? = some prev)
    (heq : s.store.getD (s.units.getD prev.branch {}).labelsRef [] = s.store.getD lr []) :
    s.appendPoint bid loc c r lr =
      ({ s with
          store := s.store ++ [s.store.getD lr []]
          units := s.units.set prev.branch
            { s.units.getD prev.branch {} with
              labelsRef := s.store.length
              points := (s.units.getD prev.branch {}).points ++ [⟨loc, c, r, prev.branch⟩] }
          cables := s.cables.set bid
            { s.cables.getD bid {} with
              points := (s.cables.getD bid {}).points ++ [⟨loc, c, r, prev.branch⟩] } },
        prev.branch) := by
  simp only [Schematic.appendPoint, hl]
  rw [if_pos heq]

/-- Explicit form of `appendPoint` when the label list differs: a new unit is
appended as a child of the previous point's unit. -/
theorem appendPoint_form_new (s : Schematic) (bid : Nat) (loc : Nat × Nat)
    (c : ℚ × ℚ × ℚ) (r : ℚ) (lr : Nat) (prev : Point)
    (hl : (s.cables.getD bid {}).points.getLast? = some prev)
    (hne : s.store.getD (s.units.getD prev.branch {}).labelsRef [] ≠ s.store.getD lr []) :
    s.appendPoint bid loc c r lr =
      ({ s with
          store := s.store ++ [s.store.getD lr []]
          units := s.units.set prev.branch
            { s.units.getD prev.branch {} with
              children := (s.units.getD prev.branch {}).children ++ [s.units.length] } ++
            [{ points := [⟨loc, c, r, s.units.length⟩]
               parent := some prev.branch
               labelsRef := s.store.length }]
          cables := s.cables.set bid
            { s.cables.getD bid {} with
              points := (s.cables.getD bid {}).points ++ [⟨loc, c, r, s.units.length⟩] } },
        s.units.length) := by
  have hlen1 : (s.units.set prev.branch
      { s.units.getD prev.branch {} with
        children := (s.units.getD prev.branch {}).children ++ [s.units.length] }).length
      = s.units.length := List.length_set _ _ _
  simp only [Schematic.appendPoint, hl]
  rw [if_neg hne]
  rw [getD_concat_of_length _ _ _ _ hlen1, set_concat_of_length _ _ _ _ hlen1]
  simp

/-- Facts about one `appendPoint` step: the store grows by one fresh cell
holding a copy of the caller's list value; every unit branch's `labelsRef`
afterwards is either that fresh cell or a cell some unit already pointed at
before; point back-references stay within the arena. -/
theorem appendPoint_facts (s : Schematic) (bid : Nat) (loc : Nat × Nat)
    (c : ℚ × ℚ × ℚ) (r : ℚ) (lr : Nat)
    (hpv : ∀ cb ∈ s.cables, ∀ p ∈ cb.points, p.branch < s.units.length) :
    (s.appendPoint bid loc c r lr).1.store = s.store ++ [s.store.getD lr []] ∧
    s.units.length ≤ (s.appendPoint bid loc c r lr).1.units.length ∧
    (s.appendPoint bid loc c r lr).2 < (s.appendPoint bid loc c r lr).1.units.length ∧
    (∀ u ∈ (s.appendPoint bid loc c r lr).1.units,
      u.labelsRef = s.store.length ∨ ∃ u0 ∈ s.units, u.labelsRef = u0.labelsRef) ∧
    (∀ cb ∈ (s.appendPoint bid loc c r lr).1.cables, ∀ p ∈ cb.points,
      p.branch < (s.appendPoint bid loc c r lr).1.units.length) := by
  have hcbpoints : ∀ p ∈ (s.cables.getD bid {}).points, p.branch < s.units.length := by
    intro p hp
    by_cases hb : bid < s.cables.length
    · exact hpv _ (getD_mem _ _ _ hb) p hp
    · rw [getD_out _ _ _ hb] at hp
      simp at hp
  cases hl : (s.cables.getD bid {}).points.getLast? with
  | none =>
    rw [appendPoint_form_empty s bid loc c r lr hl]
    refine ⟨rfl, by simp, by simp, ?_, ?_⟩
    · intro u hu
      rcases List.mem_append.mp hu with hu | hu
      · exact Or.inr ⟨u, hu, rfl⟩
      · rw [List.mem_singleton] at hu
        subst hu
        exact Or.inl rfl
    · intro cb hcb p hp
      simp only [List.length_append, List.length_set, List.length_cons]
      rcases List.mem_or_eq_of_mem_set hcb with hcb | hcb
      · exact lt_of_lt_of_le (hpv cb hcb p hp) (by simp)
      · subst hcb
        simp only at hp
        rcases List.mem_append.mp hp with hp | hp
        · exact lt_of_lt_of_le (hcbpoints p hp) (by simp)
        · rw [List.mem_singleton] at hp
          subst hp
          simp
  | some prev =>
    have hprevmem : prev ∈ (s.cables.getD bid {}).points := List.mem_of_mem_getLast? hl
    have hplt : prev.branch < s.units.length := hcbpoints _ hprevmem
    have hpu : s.units.getD prev.branch {} ∈ s.units := getD_mem _ _ _ hplt
    by_cases heq : s.store.getD (s.units.getD prev.branch {}).labelsRef []
        = s.store.getD lr []
    · rw [appendPoint_form_continue s bid loc c r lr prev hl heq]
      refine ⟨rfl, by simp, by simpa using hplt, ?_, ?_⟩
      · intro u hu
        rcases List.mem_or_eq_of_mem_set hu with hu | hu
        · exact Or.inr ⟨u, hu, rfl⟩
        · subst hu
          exact Or.inl rfl
      · intro cb hcb p hp
        simp only [List.length_set]
        rcases List.mem_or_eq_of_mem_set hcb with hcb | hcb
        · exact hpv cb hcb p hp
        · subst hcb
          simp only at hp
          rcases List.mem_append.mp hp with hp | hp
          · exact hcbpoints p hp
          · rw [List.mem_singleton] at hp
            subst hp
            exact hplt
    · rw [appendPoint_form_new s bid loc c r lr prev hl heq]
      refine ⟨rfl, by simp, by simp, ?_, ?_⟩
      · intro u hu
        rcases List.mem_append.mp hu with hu | hu
        · rcases List.mem_or_eq_of_mem_set hu with hu | hu
          · exact Or.inr ⟨u, hu, rfl⟩
          · subst hu
            exact Or.inr ⟨_, hpu, rfl⟩
        · rw [List.mem_singleton] at hu
          subst hu
          exact Or.inl rfl
      · intro cb hcb p hp
        simp only [List.length_append, List.length_set, List.length_cons]
        rcases List.mem_or_eq_of_mem_set hcb with hcb | hcb
        · exact lt_of_lt_of_le (hpv cb hcb p hp) (by simp)
        · subst hcb
          simp only at hp
          rcases List.mem_append.mp hp with hp | hp
          · exact lt_of_lt_of_le (hcbpoints p hp) (by simp)
          · rw [List.mem_singleton] at hp
            subst hp
            simp

/-- Facts about the endpoint-linking stage: it only rewrites parent/child
links, so the store is untouched, the arena size is unchanged, and every unit
branch's `labelsRef` afterwards was some unit branch's `labelsRef` before. -/
theorem linkEndpoint_facts (s1 : Schematic) (bid uidx : Nat) (ep : Nat × Nat)
    (s5 : Schematic)
    (hpv1 : ∀ cb ∈ s1.cables, ∀ p ∈ cb.points, p.branch < s1.units.length)
    (huidx : uidx < s1.units.length)
    (h : s1.linkEndpoint bid uidx ep = .ok s5) :
    s5.store = s1.store ∧ s5.units.length = s1.units.length ∧
    (∀ u ∈ s5.units, ∃ u0 ∈ s1.units, u.labelsRef = u0.labelsRef) := by
  unfold Schematic.linkEndpoint at h
  cases hg : (s1.cables.getD ep.1 {}).points.get? ep.2 with
  | none =>
    rw [hg] at h
    exact absurd h (by simp)
  | some epPoint =>
    rw [hg] at h
    rw [Except.ok.injEq] at h
    subst h
    have hep1 : ep.1 < s1.cables.length := by
      by_contra hge
      rw [getD_out _ _ _ hge] at hg
      simp at hg
    have hepP : epPoint ∈ (s1.cables.getD ep.1 {}).points := List.get?_mem hg
    have hepb : epPoint.branch < s1.units.length :=
      hpv1 _ (getD_mem _ _ _ hep1) _ hepP
    refine ⟨rfl, by simp, ?_⟩
    intro u hu
    have huidxmem : s1.units.getD uidx {} ∈ s1.units := getD_mem _ _ _ huidx
    rcases List.mem_or_eq_of_mem_set hu with hu | hu
    · rcases List.mem_or_eq_of_mem_set hu with hu | hu
      · exact ⟨u, hu, rfl⟩
      · subst hu
        exact ⟨_, huidxmem, rfl⟩
    · subst hu
      simp only
      rcases List.mem_or_eq_of_mem_set
          (getD_mem (s1.units.set uidx _) epPoint.branch {} (by simpa using hepb)) with
        hm | hm
      · exact ⟨_, hm, rfl⟩
      · rw [hm]
        exact ⟨_, huidxmem, rfl⟩

/-- On the success path, `create_location` extends the store by exactly one
fresh cell (the copy of the caller's label list), and every unit branch's
`labelsRef` afterwards is either that fresh cell or a cell some unit already
pointed at before the call. -/
theorem create_location_ok_refs (s : Schematic) (bid pid : Nat) (c : ℚ × ℚ × ℚ)
    (r : ℚ) (lr : Nat) (ep : Option (Nat × Nat)) (s' : Schematic)
    (hfz : s._frozen = false)
    (hpv : ∀ cb ∈ s.cables, ∀ p ∈ cb.points, p.branch < s.units.length)
    (hok : s.create_location (bid, pid) c r lr ep = .ok s') :
    s'.store = s.store ++ [s.store.getD lr []] ∧
    ∀ u ∈ s'.units, u.labelsRef = s.store.length ∨
      ∃ u0 ∈ s.units, u.labelsRef = u0.labelsRef := by
  simp only [Schematic.create_location] at hok
  rw [if_neg (by simp [hfz])] at hok
  by_cases hcond : bid = s.cables.length ∨ (bid : Int) = (s.cables.length : Int) - 1
  swap
  · rw [if_neg hcond] at hok
    by_cases he : s.cables.isEmpty <;> simp [he] at hok
  rw [if_pos hcond] at hok
  have key : ∃ s0 : Schematic, s0.units = s.units ∧ s0.store = s.store ∧
      (∀ cb ∈ s0.cables, ∀ p ∈ cb.points, p.branch < s0.units.length) ∧
      ((if pid ≠ ((s0.cables.getD bid {}).points.length) then
          Except.error PyErr.constructionError
        else
          match ep with
          | some e =>
            (s0.appendPoint bid (bid, pid) c r lr).1.linkEndpoint bid
              (s0.appendPoint bid (bid, pid) c r lr).2 e
          | none =>
            if pid = 0 then
              Except.ok
                { (s0.appendPoint bid (bid, pid) c r lr).1 with
                  roots := (s0.appendPoint bid (bid, pid) c r lr).1.roots ++
                    [(s0.appendPoint bid (bid, pid) c r lr).2] }
            else Except.ok (s0.appendPoint bid (bid, pid) c r lr).1) = Except.ok s') := by
    by_cases hb : bid = s.cables.length
    · refine ⟨{ s with cables := s.cables ++ [({} : CableBranch)] }, rfl, rfl, ?_, ?_⟩
      · intro cb hcb p hp
        rcases List.mem_append.mp hcb with hcb | hcb
        · exact hpv cb hcb p hp
        · rw [List.mem_singleton] at hcb
          subst hcb
          simp at hp
      · simpa only [if_pos hb] using hok
    · exact ⟨s, rfl, rfl, hpv, by simpa only [if_neg hb] using hok⟩
  obtain ⟨s0, hs0u, hs0store, hs0pv, hok2⟩ := key
  by_cases hpid : pid ≠ (s0.cables.getD bid {}).points.length
  · rw [if_pos hpid] at hok2
    exact absurd hok2 (by simp)
  rw [if_neg hpid] at hok2
  obtain ⟨hfstore, hflen, hfuidx, hfrefs, hfpv⟩ :=
    appendPoint_facts s0 bid (bid, pid) c r lr hs0pv
  cases ep with
  | none =>
    have hsp : ∀ t : Schematic,
        t.units = (s0.appendPoint bid (bid, pid) c r lr).1.units →
        t.store = (s0.appendPoint bid (bid, pid) c r lr).1.store →
        t = s' →
        s'.store = s.store ++ [s.store.getD lr []] ∧
          ∀ u ∈ s'.units, u.labelsRef = s.store.length ∨
            ∃ u0 ∈ s.units, u.labelsRef = u0.labelsRef := by
      rintro t htu hts rfl
      constructor
      · rw [hts, hfstore, hs0store]
      · intro u hu
        rw [htu] at hu
        rcases hfrefs u hu with h | ⟨u0, hu0, h⟩
        · rw [← hs0store]
          exact Or.inl h
        · rw [hs0u] at hu0
          exact Or.inr ⟨u0, hu0, h⟩
    by_cases h0 : pid = 0
    · rw [if_pos h0, Except.ok.injEq] at hok2
      exact hsp
        { (s0.appendPoint bid (bid, pid) c r lr).1 with
          roots := (s0.appendPoint bid (bid, pid) c r lr).1.roots ++
            [(s0.appendPoint bid (bid, pid) c r lr).2] } rfl rfl hok2
    · rw [if_neg h0, Except.ok.injEq] at hok2
      exact hsp _ rfl rfl hok2
  | some e =>
    obtain ⟨hlst, hllen, hlrefs⟩ :=
      linkEndpoint_facts (s0.appendPoint bid (bid, pid) c r lr).1 bid
        (s0.appendPoint bid (bid, pid) c r lr).2 e s' hfpv hfuidx hok2
    constructor
    · rw [hlst, hfstore, hs0store]
    · intro u hu
      obtain ⟨u1, hu1, href1⟩ := hlrefs u hu
      rcases hfrefs u1 hu1 with h | ⟨u0, hu0, h⟩
      · rw [← hs0store]
        exact Or.inl (href1.trans h)
      · rw [hs0u] at hu0
        exact Or.inr ⟨u0, hu0, href1.trans h⟩

/-- Whether appending a point with label-list value `lv` to cable `bid` would
continue the previous point's unit branch — the comparison
`prev.branch.labels == labels` that `CableBranch.append` performs. -/
def Schematic.continuesSameUnit (s : Schematic) (bid : Nat) (lv : List String) : Bool :=
  match (s.cables.getD bid {}).points.getLast? with
  | some prev => s.unitLabelsAt prev.branch == lv
  | none => false

/-- C10 (confirmed): `create_location` stores a *copy* of the caller's label
list into the unit branch, never the caller's list object itself.  After a
successful call, no unit branch's label cell is the caller's cell `lr`, so
overwriting the caller's list afterwards (`store.set lr w`) changes no unit
branch's label set and no future unit-branch splitting decision. -/
theorem labels_copied_not_aliased (s : Schematic) (bid pid : Nat)
    (c : ℚ × ℚ × ℚ) (r : ℚ) (lr : Nat) (ep : Option (Nat × Nat)) (s' : Schematic)
    (hfz : s._frozen = false)
    (hpv : ∀ cb ∈ s.cables, ∀ p ∈ cb.points, p.branch < s.units.length)
    (hnotin : ∀ u ∈ s.units, u.labelsRef ≠ lr)
    (hlr : lr < s.store.length)
    (hok : s.create_location (bid, pid) c r lr ep = .ok s') :
    (∀ u ∈ s'.units, u.labelsRef ≠ lr) ∧
    (∀ w i, i < s'.units.length →
      Schematic.unitLabelsAt { s' with store := s'.store.set lr w } i =
        s'.unitLabelsAt i) ∧
    (∀ w bid' lv,
      (∀ p ∈ (s'.cables.getD bid' {}).points, p.branch < s'.units.length) →
      Schematic.continuesSameUnit { s' with store := s'.store.set lr w } bid' lv =
        s'.continuesSameUnit bid' lv) := by
  obtain ⟨hstore, hrefs⟩ :=
    create_location_ok_refs s bid pid c r lr ep s' hfz hpv hok
  have hne : ∀ u ∈ s'.units, u.labelsRef ≠ lr := by
    intro u hu
    rcases hrefs u hu with h | ⟨u0, hu0, h⟩
    · omega
    · rw [h]
      exact hnotin u0 hu0
  have hlab : ∀ w i, i < s'.units.length →
      Schematic.unitLabelsAt { s' with store := s'.store.set lr w } i =
        s'.unitLabelsAt i := by
    intro w i hi
    have hmem : s'.units.getD i {} ∈ s'.units := getD_mem _ _ _ hi
    unfold Schematic.unitLabelsAt
    exact getD_set_ne _ _ _ _ _ (fun hh => hne _ hmem hh.symm)
  refine ⟨hne, hlab, ?_⟩
  intro w bid' lv hbpv
  unfold Schematic.continuesSameUnit
  cases hl : (s'.cables.getD bid' {}).points.getLast? with
  | none => rfl
  | some prev =>
    have hplt : prev.branch < s'.units.length :=
      hbpv prev (List.mem_of_mem_getLast? hl)
    simp only
    rw [hlab w prev.branch hplt]

/-- The caller's schematic for the C10 witness: one list object (cell 0) in
the store. -/
def c10State : Schematic := { store := [["caller"]] }

/-- The state after the C10 witness call. -/
def c10Result : Schematic :=
  (c10State.create_location (0, 0) (0, 0, 0) 1 0 none).toOption.getD {}

/-- Witness for C10 at a concrete call: after creating location `(0,0)` with
the caller's list (cell 0), no unit branch aliases cell 0, and overwriting
cell 0 changes no unit branch's labels nor any splitting decision. -/
theorem labels_copied_not_aliased_witness :
    (∀ u ∈ c10Result.units, u.labelsRef ≠ 0) ∧
    (∀ w i, i < c10Result.units.length →
      Schematic.unitLabelsAt { c10Result with store := c10Result.store.set 0 w } i =
        c10Result.unitLabelsAt i) ∧
    (∀ w bid' lv,
      (∀ p ∈ (c10Result.cables.getD bid' {}).points, p.branch < c10Result.units.length) →
      Schematic.continuesSameUnit { c10Result with store := c10Result.store.set 0 w } bid' lv =
        c10Result.continuesSameUnit bid' lv) :=
  labels_copied_not_aliased c10State 0 0 (0, 0, 0) 1 0 none c10Result rfl
    (by intro cb hcb; simp [c10State] at hcb)
    (by intro u hu; simp [c10State] at hu)
    (by decide) (by decide)

/-! ## Claim C5: merge is right-biased, non-destructive, and copies new keys

`Merge.merge` mutates only `self` (every `setattr` targets `self`), and
`_mergedict` copies entries present only in the incoming dict.  To state the
aliasing halves, the record objects live in an explicit heap (a list of
cells); the dataclass merge is a single write at the `self` reference, and
`_mergedict` works on dicts mapping keys to references. -/

/-- `Merge.merge` on two heap-allocated `CableProperties` records: read both,
write the merged record back at the `self` reference (the Python loop only
ever assigns to `self`). -/
def mergeHeapCP (h : List CableProperties) (selfRef otherRef : Nat) :
    List CableProperties :=
  match h.get? selfRef, h.get? otherRef with
  | some a, some b => h.set selfRef (a.merge b)
  | _, _ => h

/-- `_mergedict` on heap-allocated `Mechanism` objects: `dself`/`dother` map
keys to heap references; a key in both merges in place at `dself`'s
reference, a key only in `dother` allocates a fresh cell holding a *copy* of
`dother`'s object and appends it to the dict. -/
def mergedictHeap (h : List Mechanism) (dself dother : List (MechId × Nat)) :
    List Mechanism × List (MechId × Nat) :=
  dother.foldl
    (fun acc kv =>
      match assocGet acc.2 kv.1 with
      | some r1 =>
        match acc.1.get? r1, acc.1.get? kv.2 with
        | some cur, some oth => (acc.1.set r1 (cur.merge oth), acc.2)
        | _, _ => acc
      | none => (acc.1 ++ [((acc.1.get? kv.2).getD {}).copy], acc.2 ++ [(kv.1, acc.1.length)]))
    (h, dself)

theorem get?_set_ne' {α : Type} (l : List α) (i j : Nat) (a : α) (h : i ≠ j) :
    (l.set i a).get? j = l.get? j := by
  rw [List.get?_eq_getElem?, List.get?_eq_getElem?, List.getElem?_set_ne h]

theorem get?_set_self' {α : Type} (l : List α) (i : Nat) (a : α) (h : i < l.length) :
    (l.set i a).get? i = some a := by
  rw [List.get?_eq_getElem?, List.getElem?_set_self h]

theorem get?_append_left' {α : Type} (l l' : List α) (n : Nat) (h : n < l.length) :
    (l ++ l').get? n = l.get? n := by
  rw [List.get?_eq_getElem?, List.get?_eq_getElem?, List.getElem?_append_left h]

theorem assocGet_mem {α β : Type} [DecidableEq α] (l : List (α × β)) (k : α) (v : β)
    (h : assocGet l k = some v) : (k, v) ∈ l := by
  induction l with
  | nil => simp [assocGet] at h
  | cons kv rest ih =>
    by_cases hk : kv.1 = k
    · simp only [assocGet, if_pos hk, Option.some.injEq] at h
      subst h
      subst hk
      exact List.mem_cons_self _ _
    · simp only [assocGet, if_neg hk] at h
      exact List.mem_cons_of_mem _ (ih h)

theorem assocGet_eq_none {α β : Type} [DecidableEq α] (l : List (α × β)) (k : α)
    (h : k ∉ l.map Prod.fst) : assocGet l k = none := by
  induction l with
  | nil => rfl
  | cons kv rest ih =>
    simp only [List.map_cons, List.mem_cons, not_or] at h
    have hk : kv.1 ≠ k := fun hh => h.1 hh.symm
    simp only [assocGet, if_neg hk]
    exact ih h.2

/-- Lookup through a Python-dict overwrite fold: keys present in `other` take
`other`'s (unique) value, all remaining keys keep `init`'s value. -/
theorem foldl_assocSet_get {α β : Type} [DecidableEq α] (other : List (α × β)) :
    ∀ (init : List (α × β)) (k : α), (other.map Prod.fst).Nodup →
      assocGet (other.foldl (fun ps kv => assocSet ps kv.1 kv.2) init) k =
        (match assocGet other k with
         | some v => some v
         | none => assocGet init k) := by
  induction other with
  | nil =>
    intro init k _
    rfl
  | cons kv rest ih =>
    intro init k hnd
    simp only [List.map_cons, List.nodup_cons] at hnd
    rw [List.foldl_cons, ih (assocSet init kv.1 kv.2) k hnd.2]
    by_cases hk : kv.1 = k
    · subst hk
      rw [assocGet_eq_none rest kv.1 hnd.1]
      rw [assocGet_assocSet_self]
      simp [assocGet]
    · simp only [assocGet, if_neg hk]
      cases assocGet rest k with
      | some v => rfl
      | none => exact assocGet_assocSet_ne init kv.1 k kv.2 hk

/-- Frame and freshness of `mergedictHeap`: objects reachable from `dother`
are never written (given `dself`'s and `dother`'s references are disjoint),
and every reference in the resulting dict is either one of `dself`'s or a
freshly allocated cell — never one of `dother`'s. -/
theorem mergedictHeap_facts (dother : List (MechId × Nat)) :
    ∀ (h : List Mechanism) (dself : List (MechId × Nat)),
      (∀ q ∈ dother, ∀ p ∈ dself, q.2 ≠ p.2) →
      (∀ q ∈ dother, q.2 < h.length) →
      (∀ r, r < h.length → (∀ p ∈ dself, r ≠ p.2) →
        (mergedictHeap h dself dother).1.get? r = h.get? r) ∧
      (∀ e ∈ (mergedictHeap h dself dother).2,
        (∃ p ∈ dself, e.2 = p.2) ∨ h.length ≤ e.2) := by
  induction dother with
  | nil =>
    intro h dself _ _
    exact ⟨fun r _ _ => rfl, fun e he => Or.inl ⟨e, he, rfl⟩⟩
  | cons q rest ih =>
    intro h dself hdisj hval
    have hdisj' : ∀ q' ∈ rest, ∀ p ∈ dself, q'.2 ≠ p.2 :=
      fun q' hq' => hdisj q' (List.mem_cons_of_mem _ hq')
    have hvq : q.2 < h.length := hval q (List.mem_cons_self _ _)
    cases hm : assocGet dself q.1 with
    | some r1 =>
      have hr1mem : (q.1, r1) ∈ dself := assocGet_mem _ _ _ hm
      have hstep : mergedictHeap h dself (q :: rest) =
          mergedictHeap (match h.get? r1, h.get? q.2 with
            | some cur, some oth => h.set r1 (cur.merge oth)
            | _, _ => h) dself rest := by
        unfold mergedictHeap
        rw [List.foldl_cons]
        simp only [hm]
        cases h.get? r1 <;> cases h.get? q.2 <;> rfl
      rw [hstep]
      cases hc : h.get? r1 with
      | none =>
        rw [show (match h.get? r1, h.get? q.2 with
            | some cur, some oth => h.set r1 (cur.merge oth)
            | _, _ => h) = h from by rw [hc]] at *
        exact ih h dself hdisj' (fun q' hq' => hval q' (List.mem_cons_of_mem _ hq'))
      | some cur =>
        cases ho : h.get? q.2 with
        | none =>
          rw [show (match h.get? r1, h.get? q.2 with
              | some cur, some oth => h.set r1 (cur.merge oth)
              | _, _ => h) = h from by rw [hc, ho]] at *
          exact ih h dself hdisj' (fun q' hq' => hval q' (List.mem_cons_of_mem _ hq'))
        | some oth =>
          rw [show (match h.get? r1, h.get? q.2 with
              | some cur, some oth => h.set r1 (cur.merge oth)
              | _, _ => h) = h.set r1 (cur.merge oth) from by rw [hc, ho]] at *
          obtain ⟨ih1, ih2⟩ := ih (h.set r1 (cur.merge oth)) dself hdisj'
            (fun q' hq' => by
              rw [List.length_set]
              exact hval q' (List.mem_cons_of_mem _ hq'))
          refine ⟨?_, ?_⟩
          · intro r hr hrp
            rw [ih1 r (by rw [List.length_set]; exact hr) hrp]
            exact get?_set_ne' h r1 r _ (fun hh => hrp _ hr1mem hh.symm)
          · intro e he
            rcases ih2 e he with hcase | hcase
            · exact Or.inl hcase
            · rw [List.length_set] at hcase
              exact Or.inr hcase
    | none =>
      have hstep : mergedictHeap h dself (q :: rest) =
          mergedictHeap (h ++ [((h.get? q.2).getD {}).copy])
            (dself ++ [(q.1, h.length)]) rest := by
        unfold mergedictHeap
        rw [List.foldl_cons]
        simp only [hm]
      rw [hstep]
      obtain ⟨ih1, ih2⟩ := ih (h ++ [((h.get? q.2).getD {}).copy])
        (dself ++ [(q.1, h.length)])
        (fun q' hq' p hp => by
          rcases List.mem_append.mp hp with hp | hp
          · exact hdisj' q' hq' p hp
          · rw [List.mem_singleton] at hp
            subst hp
            have := hval q' (List.mem_cons_of_mem _ hq')
            omega)
        (fun q' hq' => by
          rw [List.length_append]
          have := hval q' (List.mem_cons_of_mem _ hq')
          omega)
      refine ⟨?_, ?_⟩
      · intro r hr hrp
        rw [ih1 r (by rw [List.length_append]; omega)
          (fun p hp => by
            rcases List.mem_append.mp hp with hp | hp
            · exact hrp p hp
            · rw [List.mem_singleton] at hp
              subst hp
              simp only
              omega)]
        exact get?_append_left' _ _ _ hr
      · intro e he
        rcases ih2 e he with hcase | hcase
        · obtain ⟨p, hp, hep⟩ := hcase
          rcases List.mem_append.mp hp with hp | hp
          · exact Or.inl ⟨p, hp, hep⟩
          · rw [List.mem_singleton] at hp
            subst hp
            exact Or.inr (le_of_eq hep.symm)
        · rw [List.length_append] at hcase
          simp only [List.length_cons, List.length_nil] at hcase
          exact Or.inr (by omega)

/-- C5 (confirmed): the merge primitives are right-biased, non-destructive
and non-aliasing.  (i) The dataclass merge (`CableProperties`) writes only
the `self` cell: the `other` record is unchanged, every field that `other`
sets (not `None`, not an empty constraint) takes `other`'s value and every
field `other` leaves unset keeps `self`'s.  (ii) The same field law for
`Ion`.  (iii) `Mechanism`/`Synapse` parameter merge: keys in `other` take
`other`'s value, keys only in `self` keep theirs.  (iv) `_mergedict` never
writes to any object reachable from the incoming dict, and every entry of
the result refers to one of `self`'s objects or a fresh copy — never to an
object of the incoming dict. -/
theorem merge_right_biased_nondestructive :
    (∀ (h : List CableProperties) (sR oR : Nat) (a b : CableProperties),
      sR ≠ oR → h.get? sR = some a → h.get? oR = some b →
      (mergeHeapCP h sR oR).get? oR = some b ∧
      (mergeHeapCP h sR oR).get? sR = some (a.merge b) ∧
      (presentVal b.Ra = true → (a.merge b).Ra = b.Ra) ∧
      (presentVal b.Ra = false → (a.merge b).Ra = a.Ra) ∧
      (presentVal b.cm = true → (a.merge b).cm = b.cm) ∧
      (presentVal b.cm = false → (a.merge b).cm = a.cm)) ∧
    (∀ a b : Ion,
      (presentVal b.rev_pot = true → (a.merge b).rev_pot = b.rev_pot) ∧
      (presentVal b.rev_pot = false → (a.merge b).rev_pot = a.rev_pot) ∧
      (presentVal b.int_con = true → (a.merge b).int_con = b.int_con) ∧
      (presentVal b.int_con = false → (a.merge b).int_con = a.int_con) ∧
      (presentVal b.ext_con = true → (a.merge b).ext_con = b.ext_con) ∧
      (presentVal b.ext_con = false → (a.merge b).ext_con = a.ext_con)) ∧
    (∀ (a b : Mechanism) (k : String), (b.parameters.map Prod.fst).Nodup →
      (∀ v, assocGet b.parameters k = some v →
        assocGet (a.merge b).parameters k = some v) ∧
      (assocGet b.parameters k = none →
        assocGet (a.merge b).parameters k = assocGet a.parameters k)) ∧
    (∀ (h : List Mechanism) (dself dother : List (MechId × Nat)),
      (∀ q ∈ dother, ∀ p ∈ dself, q.2 ≠ p.2) →
      (∀ q ∈ dother, q.2 < h.length) →
      (∀ q ∈ dother, (mergedictHeap h dself dother).1.get? q.2 = h.get? q.2) ∧
      (∀ e ∈ (mergedictHeap h dself dother).2, ∀ q ∈ dother, e.2 ≠ q.2)) := by
  refine ⟨?_, ?_, ?_, ?_⟩
  · intro h sR oR a b hne ha hb
    refine ⟨?_, ?_, ?_, ?_, ?_, ?_⟩
    · unfold mergeHeapCP
      rw [ha, hb]
      show (h.set sR (a.merge b)).get? oR = some b
      rw [get?_set_ne' h sR oR _ hne]
      exact hb
    · unfold mergeHeapCP
      rw [ha, hb]
      have hlt : sR < h.length := by
        by_contra hge
        rw [List.get?_eq_getElem?, List.getElem?_eq_none (by omega)] at ha
        cases ha
      show (h.set sR (a.merge b)).get? sR = some (a.merge b)
      exact get?_set_self' h sR _ hlt
    · intro hp; simp [CableProperties.merge, hp]
    · intro hp; simp [CableProperties.merge, hp]
    · intro hp; simp [CableProperties.merge, hp]
    · intro hp; simp [CableProperties.merge, hp]
  · intro a b
    refine ⟨?_, ?_, ?_, ?_, ?_, ?_⟩ <;> intro hp <;> simp [Ion.merge, hp]
  · intro a b k hnd
    constructor
    · intro v hv
      have hf := foldl_assocSet_get b.parameters a.parameters k hnd
      rw [hv] at hf
      exact hf
    · intro hv
      have hf := foldl_assocSet_get b.parameters a.parameters k hnd
      rw [hv] at hf
      exact hf
  · intro h dself dother hdisj hval
    obtain ⟨h1, h2⟩ := mergedictHeap_facts dother h dself hdisj hval
    refine ⟨?_, ?_⟩
    · intro q hq
      exact h1 q.2 (hval q hq) (fun p hp => hdisj q hq p hp)
    · intro e he q hq
      rcases h2 e he with ⟨p, hp, hep⟩ | hfresh
      · rw [hep]
        exact fun hh => hdisj q hq p hp hh.symm
      · intro hh
        have := hval q hq
        omega

/-- Concrete records for the C5 witness. -/
def cpWitnessA : CableProperties := { Ra := some (.num 1) }

/-- Second concrete cable record for the C5 witness (leaves `cm` unset). -/
def cpWitnessB : CableProperties := { Ra := some (.num 2) }

/-- Concrete mechanism for the C5 witness. -/
def mechWitnessA : Mechanism := { parameters := [("e", .num (-70)), ("g", .num 1)] }

/-- Second concrete mechanism for the C5 witness. -/
def mechWitnessB : Mechanism := { parameters := [("g", .num 2)] }

/-- Heap for the C5 `_mergedict` witness. -/
def mechHeapW : List Mechanism := [mechWitnessA, mechWitnessB]

/-- `self` dict (key `pas` at cell 0) for the C5 witness. -/
def dSelfW : List (MechId × Nat) := [(["pas"], 0)]

/-- incoming dict (key `hh` at cell 1) for the C5 witness. -/
def dOtherW : List (MechId × Nat) := [(["hh"], 1)]

/-- Witness for C5 at concrete records, discharging every hypothesis. -/
theorem merge_right_biased_nondestructive_witness :
    ((mergeHeapCP [cpWitnessA, cpWitnessB] 0 1).get? 1 = some cpWitnessB ∧
     (mergeHeapCP [cpWitnessA, cpWitnessB] 0 1).get? 0 =
       some (cpWitnessA.merge cpWitnessB) ∧
     (presentVal cpWitnessB.Ra = true →
       (cpWitnessA.merge cpWitnessB).Ra = cpWitnessB.Ra) ∧
     (presentVal cpWitnessB.Ra = false →
       (cpWitnessA.merge cpWitnessB).Ra = cpWitnessA.Ra) ∧
     (presentVal cpWitnessB.cm = true →
       (cpWitnessA.merge cpWitnessB).cm = cpWitnessB.cm) ∧
     (presentVal cpWitnessB.cm = false →
       (cpWitnessA.merge cpWitnessB).cm = cpWitnessA.cm)) ∧
    ((∀ v, assocGet mechWitnessB.parameters "g" = some v →
       assocGet (mechWitnessA.merge mechWitnessB).parameters "g" = some v) ∧
     (assocGet mechWitnessB.parameters "g" = none →
       assocGet (mechWitnessA.merge mechWitnessB).parameters "g" =
         assocGet mechWitnessA.parameters "g")) ∧
    ((∀ q ∈ dOtherW, (mergedictHeap mechHeapW dSelfW dOtherW).1.get? q.2 =
        mechHeapW.get? q.2) ∧
     (∀ e ∈ (mergedictHeap mechHeapW dSelfW dOtherW).2, ∀ q ∈ dOtherW, e.2 ≠ q.2)) :=
  ⟨merge_right_biased_nondestructive.1 [cpWitnessA, cpWitnessB] 0 1 cpWitnessA cpWitnessB
      (by decide) (by decide) (by decide),
   merge_right_biased_nondestructive.2.2.1 mechWitnessA mechWitnessB "g" (by decide),
   merge_right_biased_nondestructive.2.2.2 mechHeapW dSelfW dOtherW
      (by decide) (by decide)⟩

end Arborize
